import Mathlib

/-!
# 5calls `go/reps.go`: the caching rep finder and `APIError.Error`

A shallow embedding of `src/go/reps.go`.

* `APIError.Error` (reps.go:28-37) is embedded as a left fold over the
  sub-error list that appends to a buffer, as the Go loop does.
* `repCache.GetReps` (reps.go:81-96) is embedded over an explicit heap, so that
  the pointers the Go function receives from its delegate and hands to its
  caller are addresses of cells, and the values it copies into a `cacheItem`
  are values.
* `LocalReps` and `Address` are declared outside reps.go; they are the type
  parameters `L` and `A`.  The values of Go's `error` interface are the type
  parameter `E`, and the state a delegate keeps between calls is `σ`.
* The store behind `repCache.cache` is the imported package
  `github.com/patrickmn/go-cache` (reps.go:8).  Its source is not part of the
  repository; `Cache.New`, `Cache.Get`, `Cache.Set` and `Cache.DeleteExpired`
  follow the package's published functions of those names, with the clock
  reading `time.Now().UnixNano()` taken as the parameter `now`.

Conventions.  Instants are `Nat` (nanoseconds since the epoch, as `UnixNano`
reports for any clock set after 1970), durations and expiration stamps are
`Int` (Go `time.Duration` and `int64`); sums of an instant and a duration are
taken without wrap-around, which is what the package computes as long as the
sum is at most `MaxInt64`.  One call of `GetReps` reads the clock at a single
instant `now`; on a miss that is the instant at which the item is stored.
-/

namespace FiveCalls

/-! ## `APIError` (reps.go:16-37) -/

/-- One element of `APIError.Errors`, the anonymous struct of reps.go:21-25. -/
structure SubError where
  Domain : String
  Reason : String
  Message : String
deriving DecidableEq, Repr

/-- Go `APIError` (reps.go:18-26). -/
structure APIError where
  Code : Int
  Message : String
  Errors : List SubError
deriving DecidableEq, Repr

/-- What `fmt.Fprintf(&buf, ";[domain=%s, reason=%s: %s]", ...)` of reps.go:33
appends to the buffer for one sub-error. -/
def SubError.segment (e : SubError) : String :=
  ";[domain=" ++ e.Domain ++ ", reason=" ++ e.Reason ++ ": " ++ e.Message ++ "]"

/-- Go `(*APIError).Error` (reps.go:28-37): the buffer starts as
`"%d %s"` of the code and message, and the loop over `ae.Errors` appends a
segment for each sub-error whose message differs from the top-level one. -/
def APIError.Error (ae : APIError) : String :=
  ae.Errors.foldl
    (fun buf e => if e.Message ≠ ae.Message then buf ++ e.segment else buf)
    (toString ae.Code ++ " " ++ ae.Message)

/-! ## The store: package `go-cache` -/

/-- Package go-cache, `type Item struct { Object interface{}; Expiration int64 }`.
An `Expiration` of `0` means the item never expires. -/
structure Item (α : Type) where
  Object : α
  Expiration : Int
deriving DecidableEq, Repr

/-- Package go-cache, `type cache struct`: the default expiration and the map
`items map[string]Item`, the latter as a function from keys. -/
structure Cache (α : Type) where
  defaultExpiration : Int
  items : String → Option (Item α)

/-- Package go-cache, `const NoExpiration time.Duration = -1`. -/
def NoExpiration : Int := -1

/-- Package go-cache, `const DefaultExpiration time.Duration = 0`. -/
def DefaultExpiration : Int := 0

/-- Package go-cache, `New(defaultExpiration, cleanupInterval)`: an empty map;
`newCache` replaces a default expiration of `0` by `-1`.  The package documents
it so: "If the expiration duration is less than one (or NoExpiration), the
items in the cache never expire (by default) ... If the cleanup interval is
less than one, expired items are not deleted from the cache before calling
c.DeleteExpired()."  The cleanup interval only decides whether a janitor
goroutine calls `DeleteExpired` periodically (it does when
`cleanupInterval > 0`); it is not stored in the cache. -/
def Cache.New {α : Type} (defaultExpiration _cleanupInterval : Int) : Cache α :=
  { defaultExpiration := if defaultExpiration = 0 then -1 else defaultExpiration
    items := fun _ => none }

/-- Package go-cache, `Item.Expired` as inlined in `Get` and `DeleteExpired`:
`item.Expiration > 0 && now > item.Expiration`. -/
def Item.Expired {α : Type} (item : Item α) (now : Nat) : Bool :=
  decide (0 < item.Expiration) && decide (item.Expiration < (now : Int))

/-- Package go-cache, `(*cache).Get(k)`: `(nil, false)` when the key is not in
the map or its item has expired at `now`, else `(item.Object, true)`.  The
map is not modified. -/
def Cache.Get {α : Type} (c : Cache α) (now : Nat) (k : String) : Option α :=
  match c.items k with
  | none => none
  | some item => if item.Expired now then none else some item.Object

/-- Package go-cache, `(*cache).Set(k, x, d)`: `d == DefaultExpiration` is
replaced by the cache's default; a positive `d` gives the expiration stamp
`now + d`, any other `d` the stamp `0`; the item replaces whatever the map held
under `k`.

The stamp is the exact sum here.  It is the stamp the package stores,
`time.Now().Add(d).UnixNano()`, whenever `now + d ≤ MaxInt64`; for a larger
sum the package's `int64` wraps around and this definition does not follow
it, so statements about the value of a stamp are made under
`now + d ≤ MaxInt64` only. -/
def Cache.Set {α : Type} (c : Cache α) (now : Nat) (k : String) (x : α) (d : Int) :
    Cache α :=
  let d := if d = DefaultExpiration then c.defaultExpiration else d
  let e : Int := if 0 < d then (now : Int) + d else 0
  { c with items := fun k' => if k' = k then some ⟨x, e⟩ else c.items k' }

/-- Package go-cache, `(*cache).DeleteExpired()`, the janitor's sweep: every
item that has expired at `now` is deleted from the map. -/
def Cache.DeleteExpired {α : Type} (c : Cache α) (now : Nat) : Cache α :=
  { c with items := fun k =>
      match c.items k with
      | none => none
      | some item => if item.Expired now then none else some item }

/-! ## The heap -/

/-- The cells a `*LocalReps` or an `*Address` can point to.  A pointer is the
index of a cell; Go `nil` is `none` at the places that hold a pointer. -/
structure Heap (L A : Type) where
  reps : List L
  addrs : List A
deriving DecidableEq, Repr

/-- A new `LocalReps` variable initialised to `v`, and its address. -/
def Heap.newReps {L A : Type} (h : Heap L A) (v : L) : Nat × Heap L A :=
  (h.reps.length, { h with reps := h.reps ++ [v] })

/-- A new `Address` variable initialised to `v`, and its address. -/
def Heap.newAddr {L A : Type} (h : Heap L A) (v : A) : Nat × Heap L A :=
  (h.addrs.length, { h with addrs := h.addrs ++ [v] })

/-- An assignment `*p = v` through a `*LocalReps`. -/
def Heap.setReps {L A : Type} (h : Heap L A) (p : Nat) (v : L) : Heap L A :=
  { h with reps := h.reps.set p v }

/-- An assignment `*p = v` through an `*Address`. -/
def Heap.setAddr {L A : Type} (h : Heap L A) (p : Nat) (v : A) : Heap L A :=
  { h with addrs := h.addrs.set p v }

/-! ## `repCache` (reps.go:61-96) -/

/-- Go `cacheItem` (reps.go:67-70): the result and the address, held by value. -/
structure cacheItem (L A : Type) where
  reps : L
  addr : A
deriving DecidableEq, Repr

/-- What an `interface{}` slot of the store can hold: a (non-nil) `*cacheItem`,
given by the struct it points to (the pointer never leaves `GetReps` and the
store), or a value of any other dynamic type. -/
inductive Value (L A : Type) where
  | cacheItemPtr (ci : cacheItem L A)
  | other (tag : Nat)
deriving DecidableEq, Repr

/-- The three results of a `GetReps` method, `(*LocalReps, *Address, error)`. -/
structure Ret (E : Type) where
  reps : Option Nat
  addr : Option Nat
  err : Option E
deriving DecidableEq, Repr

/-- Go `RepFinder` (reps.go:12-14), for the delegate: one call takes the
address, the delegate's own state and the heap, and gives the three results,
the new state and the new heap. -/
structure RepFinder (σ L A E : Type) where
  GetReps : String → σ → Heap L A → Ret E × σ × Heap L A

/-- Go `repCache` (reps.go:62-65). -/
structure repCache (σ L A E : Type) where
  delegate : RepFinder σ L A E
  cache : Cache (Value L A)

/-- How a call of `repCache.GetReps` ends: it returns, or it panics (a nil
dereference at reps.go:93, a failed type assertion at reps.go:84). -/
inductive Outcome (E : Type) where
  | returned (ret : Ret E)
  | panicked
deriving DecidableEq, Repr

/-- A call of `repCache.GetReps` as a whole: how it ended, the `repCache`, the
delegate's state and the heap after it, and the addresses the delegate was
invoked with during the call, in order.  The last is a record kept for the
statements about delegate invocations; the Go function has no such result. -/
structure Step (σ L A E : Type) where
  out : Outcome E
  rc : repCache σ L A E
  dstate : σ
  heap : Heap L A
  calls : List String

/-- Go `NewRepCache` (reps.go:73-78). -/
def NewRepCache {σ L A E : Type} (delegate : RepFinder σ L A E) (ttl gc : Int) :
    repCache σ L A E :=
  { delegate := delegate, cache := Cache.New ttl gc }

/-- Go `(*repCache).GetReps` (reps.go:81-96) at the instant `now`, with the
delegate in state `s` and the heap `h`.

On a hit (reps.go:83-88) the type assertion `data.(*cacheItem)` panics for a
value of another type; otherwise `reps := ci.reps` and `addr := ci.addr` are
two new variables holding copies of the struct values, and their addresses are
returned.  On a miss (reps.go:89-95) the delegate is called; a non-nil error
is returned with two nil pointers; otherwise `*reps` and `*addr` are read (a
nil pointer panics, and so does here a pointer to no cell, which Go does not
have), a `cacheItem` with the two struct values is set under the address with
`cache.DefaultExpiration`, and the delegate's own pointers are returned. -/
def repCache.GetReps {σ L A E : Type} (r : repCache σ L A E) (now : Nat)
    (address : String) (s : σ) (h : Heap L A) : Step σ L A E :=
  match r.cache.Get now address with
  | some data =>
    -- reps.go:84-87
    match data with
    | .cacheItemPtr ci =>
      let (p, h1) := h.newReps ci.reps
      let (q, h2) := h1.newAddr ci.addr
      ⟨.returned ⟨some p, some q, none⟩, r, s, h2, []⟩
    | .other _ => ⟨.panicked, r, s, h, []⟩
  | none =>
    -- reps.go:89
    match r.delegate.GetReps address s h with
    | (ret, s1, h1) =>
      match ret.err with
      | some e => ⟨.returned ⟨none, none, some e⟩, r, s1, h1, [address]⟩
      | none =>
        -- reps.go:93: `*reps` and `*addr`
        match ret.reps.bind (fun p => h1.reps[p]?), ret.addr.bind (fun q => h1.addrs[q]?) with
        | some R, some C =>
          ⟨.returned ⟨ret.reps, ret.addr, none⟩,
            { r with cache :=
                r.cache.Set now address (.cacheItemPtr ⟨R, C⟩) DefaultExpiration },
            s1, h1, [address]⟩
        | _, _ => ⟨.panicked, r, s1, h1, [address]⟩

/-! ## Vocabulary of the claims -/

/-- The `repCache` `r` with the map of its store replaced by `m`: the same
delegate and the same default expiration, in the store state `m`. -/
def repCache.withItems {σ L A E : Type} (r : repCache σ L A E)
    (m : String → Option (Item (Value L A))) : repCache σ L A E :=
  { r with cache := { r.cache with items := m } }

/-- The error a call returned; `none` when it returned a nil error or panicked. -/
def Outcome.err {E : Type} (o : Outcome E) : Option E :=
  match o with
  | .returned ret => ret.err
  | .panicked => none

/-- The delegate, called with `a` in state `s` on heap `h`, succeeds: it returns
a nil error and the pointers `p` and `q`, which point to `R` and `C`. -/
def RepFinder.Succeeds {σ L A E : Type} (d : RepFinder σ L A E) (a : String) (s : σ)
    (h : Heap L A) (p q : Nat) (R : L) (C : A) : Prop :=
  (d.GetReps a s h).1 = ⟨some p, some q, none⟩ ∧
    (d.GetReps a s h).2.2.reps[p]? = some R ∧ (d.GetReps a s h).2.2.addrs[q]? = some C

/-- The call returned a nil error and two pointers, to `R` and to `C`. -/
def Step.Succeeds {σ L A E : Type} (st : Step σ L A E) (R : L) (C : A) : Prop :=
  ∃ p q, st.out = .returned ⟨some p, some q, none⟩ ∧
    st.heap.reps[p]? = some R ∧ st.heap.addrs[q]? = some C

/-- One sweep of the janitor over the store of `r`, at the instant `now`. -/
def repCache.sweep {σ L A E : Type} (r : repCache σ L A E) (now : Nat) : repCache σ L A E :=
  { r with cache := r.cache.DeleteExpired now }

/-- What can happen to a caching rep finder and the heap: a caller calls
`GetReps`, the janitor sweeps, or a caller assigns through a pointer it holds. -/
inductive Event (L A : Type) where
  | call (now : Nat) (address : String)
  | sweep (now : Nat)
  | assignReps (p : Nat) (v : L)
  | assignAddr (q : Nat) (v : A)

/-- The caching rep finder together with the state of its delegate and the heap. -/
structure Sys (σ L A E : Type) where
  rc : repCache σ L A E
  dstate : σ
  heap : Heap L A

/-- A call of `GetReps` made in the state `x`. -/
def Sys.GetReps {σ L A E : Type} (x : Sys σ L A E) (now : Nat) (address : String) :
    Step σ L A E :=
  x.rc.GetReps now address x.dstate x.heap

/-- The effect of one event. -/
def Sys.step {σ L A E : Type} (x : Sys σ L A E) (ev : Event L A) : Sys σ L A E :=
  match ev with
  | .call now address =>
    ⟨(x.GetReps now address).rc, (x.GetReps now address).dstate, (x.GetReps now address).heap⟩
  | .sweep now => { x with rc := x.rc.sweep now }
  | .assignReps p v => { x with heap := x.heap.setReps p v }
  | .assignAddr q v => { x with heap := x.heap.setAddr q v }

/-- The effect of a finite sequence of events, first to last. -/
def Sys.run {σ L A E : Type} (x : Sys σ L A E) (evs : List (Event L A)) : Sys σ L A E :=
  evs.foldl Sys.step x

/-- What a delegate that is a function of the address gives for an address:
a result and a canonical address, or an error. -/
inductive Answer (L A E : Type) where
  | ok (R : L) (C : A)
  | fail (e : E)

/-- The delegate `d` is the function `f` of the address: whatever its state and
the heap, it succeeds with the content `f` gives, or fails with the error `f`
gives. -/
def RepFinder.Computes {σ L A E : Type} (d : RepFinder σ L A E)
    (f : String → Answer L A E) : Prop :=
  ∀ a s h,
    match f a with
    | .ok R C => ∃ p q, d.Succeeds a s h p q R C
    | .fail e => (d.GetReps a s h).1.err = some e

/-! ## Concrete delegates and heaps -/

/-- A delegate that counts its invocations in its state.  It fails on the empty
address with an `APIError`, and otherwise returns pointers to two new cells
that hold a result and a canonical address made from the address. -/
def stubDelegate : RepFinder Nat String String APIError where
  GetReps := fun address n h =>
    if address = "" then
      (⟨none, none, some ⟨400, "Missing address", []⟩⟩, n + 1, h)
    else
      (⟨some h.reps.length, some h.addrs.length, none⟩, n + 1,
        ⟨h.reps ++ ["reps of " ++ address], h.addrs ++ [address ++ "-canonical"]⟩)

/-- The heap with no cells. -/
def emptyHeap {L A : Type} : Heap L A := ⟨[], []⟩

/-- What `stubDelegate` computes. -/
def stubAnswer (a : String) : Answer String String APIError :=
  if a = "" then .fail ⟨400, "Missing address", []⟩
  else .ok ("reps of " ++ a) (a ++ "-canonical")

/-- An event is an assignment by a caller through a pointer. -/
def Event.IsAssign {L A : Type} (ev : Event L A) : Prop :=
  match ev with
  | .assignReps _ _ => True
  | .assignAddr _ _ => True
  | _ => False

/-- The delegate of `x` is `d`, and every item of the store of `x` holds, under
its key `k`, a `cacheItem` with the content `f` gives for `k`. -/
def Sys.Agrees {σ L A E : Type} (x : Sys σ L A E) (d : RepFinder σ L A E)
    (f : String → Answer L A E) : Prop :=
  x.rc.delegate = d ∧
    ∀ k item, x.rc.cache.items k = some item →
      ∃ R C, item.Object = .cacheItemPtr ⟨R, C⟩ ∧ f k = .ok R C

/-- Go `Official` (reps.go:49-59), by its fields `Name string` and
`Address []Address`; the fields `Party`, `Phones`, `PhotoURL` and `Channels`
are further strings and slices and are left out.  The slice is held as Go
holds it, by reference: the struct value has the addresses of the element
cells, the heap has the elements, and copying the struct copies the addresses
only. -/
structure Official where
  Name : String
  Address : List Nat
deriving DecidableEq, Repr

/-- Modelled from the spec: the result type `LocalReps`, which reps.go uses
and does not declare.  The specification calls what the resolver returns a
"result set" (section 3) whose data shapes are "office/official records"
(section 1), and reps.go declares those records (`Office`, `Official`,
reps.go:39-59); here a result holds one official record, by value. -/
structure LocalReps where
  Rep : Official
deriving DecidableEq, Repr

/-- The content of a `LocalReps` on a heap: the name of its official and the
elements of the official's `Address` slice. -/
def LocalReps.content (v : LocalReps) (h : Heap LocalReps String) :
    String × List (Option String) :=
  (v.Rep.Name, v.Rep.Address.map (fun q => h.addrs[q]?))

/-- A delegate whose result is a `LocalReps` with an official that has one
address: it allocates the element of the `Address` slice, the canonical
address and the result. -/
def officialDelegate : RepFinder Unit LocalReps String APIError where
  GetReps := fun address _ h =>
    (⟨some h.reps.length, some (h.addrs.length + 1), none⟩, (),
      ⟨h.reps ++ [⟨⟨"reps of " ++ address, [h.addrs.length]⟩⟩],
        h.addrs ++ ["office of " ++ address, address ++ "-canonical"]⟩)

/-! ## Vocabulary of the claims on configurations, sweeps and reachable states -/

/-- The instant at which an event happens; an assignment by a caller reads no
clock. -/
def Event.time {L A : Type} (ev : Event L A) : Option Nat :=
  match ev with
  | .call now _ => some now
  | .sweep now => some now
  | .assignReps _ _ => none
  | .assignAddr _ _ => none

/-- The events of `evs` happen at instants that never decrease, none before
`t`. -/
def Event.Ordered {L A : Type} (t : Nat) (evs : List (Event L A)) : Prop :=
  match evs with
  | [] => True
  | ev :: rest =>
    match ev.time with
    | some u => t ≤ u ∧ Event.Ordered u rest
    | none => Event.Ordered t rest

/-- An event is a sweep of the janitor. -/
def Event.isSweep {L A : Type} (ev : Event L A) : Bool :=
  match ev with
  | .sweep _ => true
  | _ => false

/-- Two states that no caller can tell apart from the instant `t` on: the same
delegate in the same state, the same heap, the same default expiration, and
the same answer of the store to every `Get` at `t` or later. -/
def Sys.SameView {σ L A E : Type} (t : Nat) (x y : Sys σ L A E) : Prop :=
  x.rc.delegate = y.rc.delegate ∧
    x.rc.cache.defaultExpiration = y.rc.cache.defaultExpiration ∧
    x.dstate = y.dstate ∧ x.heap = y.heap ∧
    ∀ (u : Nat) (k : String), t ≤ u → x.rc.cache.Get u k = y.rc.cache.Get u k

/-- Every value held in the store of `x` is a `*cacheItem`. -/
def Sys.Typed {σ L A E : Type} (x : Sys σ L A E) : Prop :=
  ∀ k item, x.rc.cache.items k = some item → ∃ ci, item.Object = .cacheItemPtr ci

/-- The delegate returns a non-nil result and a non-nil address, each pointing
to a cell, whenever it returns a nil error. -/
def RepFinder.NonNilOnSuccess {σ L A E : Type} (d : RepFinder σ L A E) : Prop :=
  ∀ a s h, (d.GetReps a s h).1.err = none → ∃ p q R C, d.Succeeds a s h p q R C

/-- The successful delegate invocation made by the call `GetReps(a)` in the
state `x`, if there is one: the delegate was invoked with `a` during the call,
and what it returned then is a nil error and pointers to `R` and `C`. -/
def Sys.resolved {σ L A E : Type} (x : Sys σ L A E) (now : Nat) (a : String) :
    Option (String × L × A) :=
  if a ∈ (x.GetReps now a).calls then
    match (x.rc.delegate.GetReps a x.dstate x.heap).1.err,
      (x.rc.delegate.GetReps a x.dstate x.heap).1.reps.bind
        (fun p => (x.rc.delegate.GetReps a x.dstate x.heap).2.2.reps[p]?),
      (x.rc.delegate.GetReps a x.dstate x.heap).1.addr.bind
        (fun q => (x.rc.delegate.GetReps a x.dstate x.heap).2.2.addrs[q]?) with
    | none, some R, some C => some (a, R, C)
    | _, _, _ => none
  else none

/-- The successful delegate invocations made while the events `evs` happen from
the state `x` on, first to last, each with its address and what it returned. -/
def Sys.history {σ L A E : Type} (x : Sys σ L A E) (evs : List (Event L A)) :
    List (String × L × A) :=
  match evs with
  | [] => []
  | .call now a :: rest => (x.resolved now a).toList ++ (x.step (.call now a)).history rest
  | .sweep now :: rest => (x.step (.sweep now)).history rest
  | .assignReps p v :: rest => (x.step (.assignReps p v)).history rest
  | .assignAddr q v :: rest => (x.step (.assignAddr q v)).history rest

/-- What the most recent invocation of `hist` with the address `k` returned. -/
def lastResolved {L A : Type} (k : String) (hist : List (String × L × A)) : Option (L × A) :=
  hist.foldl (fun acc e => if e.1 = k then some e.2 else acc) none

/-- A delegate that returns a result alongside an error: on the empty address
it allocates a result, returns a pointer to it and a nil address, and fails
with an `APIError`; on any other address it succeeds as `stubDelegate` does. -/
def partialDelegate : RepFinder Nat String String APIError where
  GetReps := fun address n h =>
    if address = "" then
      (⟨some h.reps.length, none, some ⟨400, "Missing address", []⟩⟩, n + 1,
        ⟨h.reps ++ ["partial"], h.addrs⟩)
    else
      (⟨some h.reps.length, some h.addrs.length, none⟩, n + 1,
        ⟨h.reps ++ ["reps of " ++ address], h.addrs ++ [address ++ "-canonical"]⟩)

/-- The delegate of `x` is `d`, and every item of the store of `x` holds, under
its key `k`, a `cacheItem` with what the most recent successful delegate
invocation of `hist` with the address `k` returned. -/
def Sys.Recorded {σ L A E : Type} (x : Sys σ L A E) (d : RepFinder σ L A E)
    (hist : List (String × L × A)) : Prop :=
  x.rc.delegate = d ∧
    ∀ k item, x.rc.cache.items k = some item →
      ∃ R C, item.Object = .cacheItemPtr ⟨R, C⟩ ∧ lastResolved k hist = some (R, C)

/-- A delegate whose result changes from one invocation to the next: the result
is the number of invocations made before, so that two successful invocations
with the same address can be told apart.  It fails on the empty address. -/
def versionedDelegate : RepFinder Nat Nat String APIError where
  GetReps := fun address n h =>
    if address = "" then
      (⟨none, none, some ⟨400, "Missing address", []⟩⟩, n + 1, h)
    else
      (⟨some h.reps.length, some h.addrs.length, none⟩, n + 1,
        ⟨h.reps ++ [n], h.addrs ++ [address ++ "-canonical"]⟩)

/-! ## Lemmas -/

section Lemmas

variable {σ L A E : Type}

theorem Cache.Get_eq_none_iff {α : Type} (c : Cache α) (now : Nat) (k : String) :
    c.Get now k = none ↔
      c.items k = none ∨ ∃ item, c.items k = some item ∧ item.Expired now = true := by
  unfold Cache.Get
  cases hk : c.items k with
  | none => simp
  | some item => by_cases hx : item.Expired now <;> simp [hx]

theorem Cache.Get_eq_some_iff {α : Type} (c : Cache α) (now : Nat) (k : String) (x : α) :
    c.Get now k = some x ↔
      ∃ item, c.items k = some item ∧ item.Expired now = false ∧ item.Object = x := by
  unfold Cache.Get
  cases hk : c.items k with
  | none => simp
  | some item => by_cases hx : item.Expired now <;> simp [hx]

theorem Item.Expired_mono {α : Type} (item : Item α) {now t : Nat} (hle : now ≤ t)
    (hx : item.Expired now = true) : item.Expired t = true := by
  simp only [Item.Expired, Bool.and_eq_true, decide_eq_true_eq] at hx ⊢
  refine ⟨hx.1, lt_of_lt_of_le hx.2 ?_⟩
  exact_mod_cast hle

theorem Cache.Get_eq_none_mono {α : Type} (c : Cache α) {now t : Nat} (k : String)
    (hle : now ≤ t) (hmiss : c.Get now k = none) : c.Get t k = none := by
  rw [Cache.Get_eq_none_iff] at hmiss ⊢
  rcases hmiss with h0 | ⟨item, hi, hx⟩
  · exact Or.inl h0
  · exact Or.inr ⟨item, hi, item.Expired_mono hle hx⟩

theorem Cache.items_Set {α : Type} (c : Cache α) (now : Nat) (k k' : String) (x : α)
    (d : Int) :
    (c.Set now k x d).items k' =
      if k' = k then
        some ⟨x, if 0 < (if d = DefaultExpiration then c.defaultExpiration else d) then
          (now : Int) + (if d = DefaultExpiration then c.defaultExpiration else d) else 0⟩
      else c.items k' := rfl

theorem Cache.items_Set_of_ne {α : Type} (c : Cache α) (now : Nat) {k k' : String} (x : α)
    (d : Int) (hne : k' ≠ k) : (c.Set now k x d).items k' = c.items k' := by
  simp [Cache.items_Set, hne]

/-- The item a store configured with `ttl` holds under `k` after
`Set(k, x, DefaultExpiration)` at `now`. -/
theorem stored_item (d : RepFinder σ L A E) (ttl gc : Int)
    (m : String → Option (Item (Value L A))) (now : Nat) (k : String) (x : Value L A) :
    (((NewRepCache d ttl gc).withItems m).cache.Set now k x DefaultExpiration).items k =
      some ⟨x, if 0 < ttl then (now : Int) + ttl else 0⟩ := by
  simp only [Cache.items_Set, NewRepCache, Cache.New, repCache.withItems, DefaultExpiration,
    if_true]
  by_cases h0 : ttl = 0
  · simp [h0]
  · simp [h0]

theorem repCache.GetReps_hit (r : repCache σ L A E) (now : Nat) (a : String) (s : σ)
    (h : Heap L A) (ci : cacheItem L A)
    (hget : r.cache.Get now a = some (.cacheItemPtr ci)) :
    r.GetReps now a s h =
      ⟨.returned ⟨some h.reps.length, some h.addrs.length, none⟩, r, s,
        ⟨h.reps ++ [ci.reps], h.addrs ++ [ci.addr]⟩, []⟩ := by
  simp [repCache.GetReps, hget, Heap.newReps, Heap.newAddr]

theorem repCache.GetReps_hit_other (r : repCache σ L A E) (now : Nat) (a : String) (s : σ)
    (h : Heap L A) (tag : Nat) (hget : r.cache.Get now a = some (.other tag)) :
    r.GetReps now a s h = ⟨.panicked, r, s, h, []⟩ := by
  simp [repCache.GetReps, hget]

theorem repCache.GetReps_miss_err (r : repCache σ L A E) (now : Nat) (a : String) (s : σ)
    (h : Heap L A) (e : E) (hget : r.cache.Get now a = none)
    (herr : (r.delegate.GetReps a s h).1.err = some e) :
    r.GetReps now a s h =
      ⟨.returned ⟨none, none, some e⟩, r, (r.delegate.GetReps a s h).2.1,
        (r.delegate.GetReps a s h).2.2, [a]⟩ := by
  simp [repCache.GetReps, hget, herr]

theorem repCache.GetReps_miss_ok (r : repCache σ L A E) (now : Nat) (a : String) (s : σ)
    (h : Heap L A) (p q : Nat) (R : L) (C : A) (hget : r.cache.Get now a = none)
    (hok : r.delegate.Succeeds a s h p q R C) :
    r.GetReps now a s h =
      ⟨.returned ⟨some p, some q, none⟩,
        { r with cache := r.cache.Set now a (.cacheItemPtr ⟨R, C⟩) DefaultExpiration },
        (r.delegate.GetReps a s h).2.1, (r.delegate.GetReps a s h).2.2, [a]⟩ := by
  obtain ⟨h1, h2, h3⟩ := hok
  simp [repCache.GetReps, hget, h1, h2, h3]

theorem repCache.GetReps_miss_calls (r : repCache σ L A E) (now : Nat) (a : String) (s : σ)
    (h : Heap L A) (hget : r.cache.Get now a = none) :
    (r.GetReps now a s h).calls = [a] := by
  simp only [repCache.GetReps, hget]
  split
  · rfl
  · split <;> rfl

theorem repCache.GetReps_hit_frame (r : repCache σ L A E) (now : Nat) (a : String) (s : σ)
    (h : Heap L A) (hget : r.cache.Get now a ≠ none) :
    (r.GetReps now a s h).rc = r ∧ (r.GetReps now a s h).calls = [] ∧
      (r.GetReps now a s h).dstate = s := by
  cases hg : r.cache.Get now a with
  | none => exact absurd hg hget
  | some data =>
    cases data with
    | cacheItemPtr ci => simp [r.GetReps_hit now a s h ci hg]
    | other tag => simp [r.GetReps_hit_other now a s h tag hg]

/-- The `repCache` after a call: unchanged, or, when the call missed and the
delegate succeeded, with the delegate's result set under the address. -/
theorem repCache.GetReps_rc_cases (r : repCache σ L A E) (now : Nat) (a : String) (s : σ)
    (h : Heap L A) :
    (r.GetReps now a s h).rc = r ∨
      ∃ p q R C, r.cache.Get now a = none ∧ r.delegate.Succeeds a s h p q R C ∧
        (r.GetReps now a s h).rc =
          { r with cache := r.cache.Set now a (.cacheItemPtr ⟨R, C⟩) DefaultExpiration } := by
  cases hg : r.cache.Get now a with
  | some data => exact Or.inl (r.GetReps_hit_frame now a s h (by simp [hg])).1
  | none =>
    cases he : (r.delegate.GetReps a s h).1.err with
    | some e => left; rw [r.GetReps_miss_err now a s h e hg he]
    | none =>
      cases hp : (r.delegate.GetReps a s h).1.reps with
      | none => left; simp [repCache.GetReps, hg, he, hp]
      | some p =>
        cases hq : (r.delegate.GetReps a s h).1.addr with
        | none => left; simp [repCache.GetReps, hg, he, hp, hq]
        | some q =>
          cases hR : (r.delegate.GetReps a s h).2.2.reps[p]? with
          | none => left; simp [repCache.GetReps, hg, he, hp, hq, hR]
          | some R =>
            cases hC : (r.delegate.GetReps a s h).2.2.addrs[q]? with
            | none => left; simp [repCache.GetReps, hg, he, hp, hq, hR, hC]
            | some C =>
              right
              have hok : r.delegate.Succeeds a s h p q R C := by
                refine ⟨?_, hR, hC⟩
                cases hret : (r.delegate.GetReps a s h).1 with
                | mk x y z =>
                  rw [hret] at he hp hq
                  simp only at he hp hq
                  rw [he, hp, hq]
              exact ⟨p, q, R, C, rfl, hok, by rw [r.GetReps_miss_ok now a s h p q R C hg hok]⟩

/-- The error a call returns is the delegate's on a miss, and nil on a hit. -/
theorem repCache.GetReps_out_err (r : repCache σ L A E) (now : Nat) (a : String) (s : σ)
    (h : Heap L A) :
    (r.GetReps now a s h).out.err =
      match r.cache.Get now a with
      | some _ => none
      | none => (r.delegate.GetReps a s h).1.err := by
  cases hg : r.cache.Get now a with
  | some data =>
    cases data with
    | cacheItemPtr ci => simp [r.GetReps_hit now a s h ci hg, Outcome.err]
    | other tag => simp [r.GetReps_hit_other now a s h tag hg, Outcome.err]
  | none =>
    cases he : (r.delegate.GetReps a s h).1.err with
    | some e => simp [r.GetReps_miss_err now a s h e hg he, Outcome.err]
    | none =>
      simp only [repCache.GetReps, hg, he]
      split <;> rfl

theorem Cache.Get_DeleteExpired_eq_none {α : Type} (c : Cache α) (sw t : Nat) (k : String)
    (hmiss : c.Get t k = none) : (c.DeleteExpired sw).Get t k = none := by
  rw [Cache.Get_eq_none_iff] at hmiss ⊢
  simp only [Cache.DeleteExpired]
  rcases hmiss with h0 | ⟨item, hi, hx⟩
  · left; simp [h0]
  · by_cases hsw : item.Expired sw
    · left; simp [hi, hsw]
    · right; exact ⟨item, by simp [hi, hsw], hx⟩

theorem repCache.sweeps_delegate (r : repCache σ L A E) (sweeps : List Nat) :
    (sweeps.foldl repCache.sweep r).delegate = r.delegate := by
  induction sweeps generalizing r with
  | nil => rfl
  | cons t ts ih => simp only [List.foldl_cons]; rw [ih]; rfl

theorem repCache.sweeps_Get_eq_none (r : repCache σ L A E) (sweeps : List Nat) (t : Nat)
    (k : String) (hmiss : r.cache.Get t k = none) :
    (sweeps.foldl repCache.sweep r).cache.Get t k = none := by
  induction sweeps generalizing r with
  | nil => exact hmiss
  | cons sw ts ih =>
    simp only [List.foldl_cons]
    exact ih (r.sweep sw) (r.cache.Get_DeleteExpired_eq_none sw t k hmiss)

/-- A call for `a` leaves the item under every other key as it was. -/
theorem repCache.GetReps_items_of_ne (r : repCache σ L A E) (now : Nat) (a k : String)
    (s : σ) (h : Heap L A) (hne : k ≠ a) :
    (r.GetReps now a s h).rc.cache.items k = r.cache.items k := by
  rcases r.GetReps_rc_cases now a s h with hrc | ⟨p, q, R, C, _, _, hrc⟩
  · rw [hrc]
  · rw [hrc]; exact Cache.items_Set_of_ne _ _ _ _ hne

theorem repCache.GetReps_miss_world (r : repCache σ L A E) (now : Nat) (a : String) (s : σ)
    (h : Heap L A) (hget : r.cache.Get now a = none) :
    (r.GetReps now a s h).dstate = (r.delegate.GetReps a s h).2.1 ∧
      (r.GetReps now a s h).heap = (r.delegate.GetReps a s h).2.2 := by
  simp only [repCache.GetReps, hget]
  split
  · exact ⟨rfl, rfl⟩
  · split <;> exact ⟨rfl, rfl⟩

theorem repCache.GetReps_delegate (r : repCache σ L A E) (now : Nat) (a : String)
    (s : σ) (h : Heap L A) : (r.GetReps now a s h).rc.delegate = r.delegate := by
  rcases r.GetReps_rc_cases now a s h with hrc | ⟨p, q, R, C, _, _, hrc⟩ <;> rw [hrc]

theorem Sys.run_cons (x : Sys σ L A E) (ev : Event L A) (evs : List (Event L A)) :
    x.run (ev :: evs) = (x.step ev).run evs := rfl

theorem Sys.run_assigns (x : Sys σ L A E) (evs : List (Event L A))
    (hasg : ∀ ev ∈ evs, ev.IsAssign) :
    (x.run evs).rc = x.rc ∧ (x.run evs).dstate = x.dstate := by
  induction evs generalizing x with
  | nil => exact ⟨rfl, rfl⟩
  | cons ev evs ih =>
    rw [Sys.run_cons]
    have hrest := ih (x.step ev) (fun e he => hasg e (List.mem_cons_of_mem _ he))
    have hev := hasg ev (List.mem_cons_self _ _)
    cases ev with
    | call now address => exact absurd hev (by simp [Event.IsAssign])
    | sweep now => exact absurd hev (by simp [Event.IsAssign])
    | assignReps p v => exact hrest
    | assignAddr q v => exact hrest

theorem Sys.run_hits (x : Sys σ L A E) (a : String) (ts : List Nat)
    (hhit : ∀ t ∈ ts, x.rc.cache.Get t a ≠ none) :
    (x.run (ts.map (fun t => Event.call t a))).rc = x.rc ∧
      (x.run (ts.map (fun t => Event.call t a))).dstate = x.dstate := by
  induction ts generalizing x with
  | nil => exact ⟨rfl, rfl⟩
  | cons t ts ih =>
    rw [List.map_cons, Sys.run_cons]
    have hfr := x.rc.GetReps_hit_frame t a x.dstate x.heap (hhit t (List.mem_cons_self _ _))
    have hrc : (x.step (Event.call t a)).rc = x.rc := hfr.1
    have hds : (x.step (Event.call t a)).dstate = x.dstate := hfr.2.2
    have hrest := ih (x.step (Event.call t a))
      (fun u hu => by rw [hrc]; exact hhit u (List.mem_cons_of_mem _ hu))
    rw [hrest.1, hrest.2, hrc, hds]
    exact ⟨rfl, rfl⟩

/-- The live item stored by a successful miss at `t0`: it is served at every
instant `t1` up to the deadline, and at every instant when `ttl ≤ 0`. -/
theorem stored_item_live (d : RepFinder σ L A E) (ttl gc : Int)
    (m : String → Option (Item (Value L A))) (t0 t1 : Nat) (k : String) (x : Value L A)
    (hlive : ttl ≤ 0 ∨ (t1 : Int) - (t0 : Int) ≤ ttl) :
    (((NewRepCache d ttl gc).withItems m).cache.Set t0 k x DefaultExpiration).Get t1 k
      = some x := by
  have hi := stored_item d ttl gc m t0 k x
  simp only [Cache.Get, hi, Item.Expired]
  by_cases hpos : 0 < ttl
  · have hle : ¬ ((t0 : Int) + ttl < (t1 : Int)) := by omega
    simp [hpos, hle]
  · simp [hpos]

theorem Sys.step_Agrees (x : Sys σ L A E) (d : RepFinder σ L A E)
    (f : String → Answer L A E) (hf : d.Computes f) (ev : Event L A)
    (hx : x.Agrees d f) : (x.step ev).Agrees d f := by
  obtain ⟨hd, hitems⟩ := hx
  cases ev with
  | call now a =>
    refine ⟨by simp only [Sys.step, Sys.GetReps]; rw [repCache.GetReps_delegate]; exact hd, ?_⟩
    intro k item hk
    simp only [Sys.step, Sys.GetReps] at hk
    rcases x.rc.GetReps_rc_cases now a x.dstate x.heap with hrc | ⟨p, q, R, C, _, hok, hrc⟩
    · rw [hrc] at hk; exact hitems k item hk
    · rw [hrc] at hk
      simp only [Cache.items_Set] at hk
      by_cases hka : k = a
      · rw [if_pos hka] at hk
        have hobj : item.Object = .cacheItemPtr ⟨R, C⟩ := by
          rw [← Option.some.inj hk]
        refine ⟨R, C, hobj, ?_⟩
        rw [hd] at hok
        have hfa := hf a x.dstate x.heap
        rw [hka]
        cases hans : f a with
        | ok R1 C1 =>
          rw [hans] at hfa
          obtain ⟨p1, q1, h1, h2, h3⟩ := hfa
          obtain ⟨g1, g2, g3⟩ := hok
          rw [g1] at h1
          injection h1 with hp hq _
          rw [← Option.some.inj hp] at h2
          rw [← Option.some.inj hq] at h3
          rw [g2] at h2
          rw [g3] at h3
          rw [Option.some.inj h2, Option.some.inj h3]
        | fail e =>
          rw [hans] at hfa
          simp only at hfa
          rw [hok.1] at hfa
          exact absurd hfa (by simp)
      · rw [if_neg hka] at hk; exact hitems k item hk
  | sweep now =>
    refine ⟨hd, ?_⟩
    intro k item hk
    simp only [Sys.step, repCache.sweep, Cache.DeleteExpired] at hk
    cases hi : x.rc.cache.items k with
    | none => rw [hi] at hk; exact absurd hk (by simp)
    | some it =>
      rw [hi] at hk
      by_cases hexp : it.Expired now
      · simp [hexp] at hk
      · simp only [hexp, Bool.false_eq_true, if_false] at hk
        rw [← Option.some.inj hk]
        exact hitems k it hi
  | assignReps p v => exact ⟨hd, hitems⟩
  | assignAddr q v => exact ⟨hd, hitems⟩

theorem Sys.run_Agrees (x : Sys σ L A E) (d : RepFinder σ L A E)
    (f : String → Answer L A E) (hf : d.Computes f) (evs : List (Event L A))
    (hx : x.Agrees d f) : (x.run evs).Agrees d f := by
  induction evs generalizing x with
  | nil => exact hx
  | cons ev evs ih => rw [Sys.run_cons]; exact ih _ (x.step_Agrees d f hf ev hx)

theorem stubDelegate_Computes : stubDelegate.Computes stubAnswer := by
  intro a s h
  by_cases ha : a = ""
  · simp [stubAnswer, stubDelegate, ha]
  · simp only [stubAnswer, stubDelegate, ha, RepFinder.Succeeds, if_false]
    exact ⟨h.reps.length, h.addrs.length, rfl, by simp, by simp⟩

theorem repCache.GetReps_hit_Succeeds (r : repCache σ L A E) (now : Nat) (a : String)
    (s : σ) (h : Heap L A) (R : L) (C : A)
    (hget : r.cache.Get now a = some (.cacheItemPtr ⟨R, C⟩)) :
    (r.GetReps now a s h).Succeeds R C ∧ (r.GetReps now a s h).calls = [] := by
  rw [r.GetReps_hit now a s h ⟨R, C⟩ hget]
  refine ⟨⟨h.reps.length, h.addrs.length, rfl, ?_, ?_⟩, rfl⟩ <;> simp

theorem String.foldl_append_eq (acc : String) (l : List String) :
    l.foldl (fun r s => r ++ s) acc = acc ++ l.foldl (fun r s => r ++ s) "" := by
  induction l generalizing acc with
  | nil => simp
  | cons x xs ih =>
    simp only [List.foldl_cons]
    rw [ih (acc ++ x), ih ("" ++ x), String.empty_append, String.append_assoc]

theorem String.join_cons_eq (x : String) (xs : List String) :
    String.join (x :: xs) = x ++ String.join xs := by
  simp only [String.join, List.foldl_cons]
  rw [String.foldl_append_eq, String.empty_append]

/-- The loop of `APIError.Error`, started with any buffer. -/
theorem APIError.loop_eq (m : String) (es : List SubError) (buf : String) :
    es.foldl (fun buf e => if e.Message ≠ m then buf ++ e.segment else buf) buf =
      buf ++ String.join ((es.filter (fun e => decide (e.Message ≠ m))).map
        SubError.segment) := by
  induction es generalizing buf with
  | nil => simp [String.join]
  | cons e es ih =>
    simp only [List.foldl_cons]
    rw [ih]
    by_cases hm : e.Message = m
    · simp [hm, List.filter_cons]
    · simp [hm, List.filter_cons, String.join_cons_eq, String.append_assoc]

/-- An item stamped `0` is served at every instant. -/
theorem Cache.Get_of_unexpiring {α : Type} (c : Cache α) (t : Nat) (k : String) (x : α)
    (hi : c.items k = some ⟨x, 0⟩) : c.Get t k = some x := by
  simp [Cache.Get, hi, Item.Expired]

/-- No event removes or replaces an item stamped `0`. -/
theorem Sys.step_keeps_unexpiring (x : Sys σ L A E) (ev : Event L A) (a : String)
    (v : Value L A) (hi : x.rc.cache.items a = some ⟨v, 0⟩) :
    (x.step ev).rc.cache.items a = some ⟨v, 0⟩ := by
  cases ev with
  | call now b =>
    simp only [Sys.step, Sys.GetReps]
    by_cases hb : a = b
    · subst hb
      have hget : x.rc.cache.Get now a ≠ none := by
        rw [x.rc.cache.Get_of_unexpiring now a v hi]; simp
      rw [(x.rc.GetReps_hit_frame now a x.dstate x.heap hget).1]
      exact hi
    · rw [repCache.GetReps_items_of_ne _ now b a x.dstate x.heap hb]
      exact hi
  | sweep now => simp [Sys.step, repCache.sweep, Cache.DeleteExpired, hi, Item.Expired]
  | assignReps p w => exact hi
  | assignAddr q w => exact hi

theorem Sys.run_keeps_unexpiring (x : Sys σ L A E) (evs : List (Event L A)) (a : String)
    (v : Value L A) (hi : x.rc.cache.items a = some ⟨v, 0⟩) :
    (x.run evs).rc.cache.items a = some ⟨v, 0⟩ := by
  induction evs generalizing x with
  | nil => exact hi
  | cons ev evs ih => rw [Sys.run_cons]; exact ih _ (x.step_keeps_unexpiring ev a v hi)

theorem Sys.step_delegate (x : Sys σ L A E) (ev : Event L A) :
    (x.step ev).rc.delegate = x.rc.delegate := by
  cases ev with
  | call now a => exact repCache.GetReps_delegate _ _ _ _ _
  | sweep now => rfl
  | assignReps p v => rfl
  | assignAddr q v => rfl

theorem Sys.run_delegate (x : Sys σ L A E) (evs : List (Event L A)) :
    (x.run evs).rc.delegate = x.rc.delegate := by
  induction evs generalizing x with
  | nil => rfl
  | cons ev evs ih => rw [Sys.run_cons, ih, Sys.step_delegate]

/-- What a sweep leaves under a key was there before the sweep. -/
theorem Cache.items_DeleteExpired_some {α : Type} (c : Cache α) (now : Nat) (k : String)
    (item : Item α) (hk : (c.DeleteExpired now).items k = some item) :
    c.items k = some item ∧ item.Expired now = false := by
  simp only [Cache.DeleteExpired] at hk
  cases hi : c.items k with
  | none => rw [hi] at hk; exact absurd hk (by simp)
  | some it =>
    rw [hi] at hk
    by_cases hexp : it.Expired now
    · simp [hexp] at hk
    · simp only [hexp, Bool.false_eq_true, if_false] at hk
      have hit : it = item := Option.some.inj hk
      subst hit
      constructor
      · rfl
      · simpa using hexp

theorem Sys.step_Typed (x : Sys σ L A E) (ev : Event L A) (hx : x.Typed) :
    (x.step ev).Typed := by
  cases ev with
  | call now a =>
    intro k item hk
    simp only [Sys.step, Sys.GetReps] at hk
    rcases x.rc.GetReps_rc_cases now a x.dstate x.heap with hrc | ⟨p, q, R, C, _, _, hrc⟩
    · rw [hrc] at hk; exact hx k item hk
    · rw [hrc] at hk
      simp only [Cache.items_Set] at hk
      by_cases hka : k = a
      · rw [if_pos hka] at hk
        exact ⟨⟨R, C⟩, by rw [← Option.some.inj hk]⟩
      · rw [if_neg hka] at hk; exact hx k item hk
  | sweep now =>
    intro k item hk
    exact hx k item (x.rc.cache.items_DeleteExpired_some now k item hk).1
  | assignReps p v => exact hx
  | assignAddr q v => exact hx

theorem Sys.run_Typed (x : Sys σ L A E) (evs : List (Event L A)) (hx : x.Typed) :
    (x.run evs).Typed := by
  induction evs generalizing x with
  | nil => exact hx
  | cons ev evs ih => rw [Sys.run_cons]; exact ih _ (x.step_Typed ev hx)

theorem Sys.init_Typed (d : RepFinder σ L A E) (ttl gc : Int) (s0 : σ) (h0 : Heap L A) :
    (Sys.mk (NewRepCache d ttl gc) s0 h0).Typed := by
  intro k item hk
  simp [NewRepCache, Cache.New] at hk

/-- In a state whose store holds only `*cacheItem` values, a hit returns. -/
theorem Sys.GetReps_hit_of_Typed (x : Sys σ L A E) (hx : x.Typed) (now : Nat) (a : String)
    (data : Value L A) (hg : x.rc.cache.Get now a = some data) :
    ∃ ci, data = .cacheItemPtr ci ∧
      x.GetReps now a =
        ⟨.returned ⟨some x.heap.reps.length, some x.heap.addrs.length, none⟩, x.rc, x.dstate,
          ⟨x.heap.reps ++ [ci.reps], x.heap.addrs ++ [ci.addr]⟩, []⟩ := by
  obtain ⟨item, hi, _, hobj⟩ := (Cache.Get_eq_some_iff _ _ _ _).1 hg
  obtain ⟨ci, hci⟩ := hx a item hi
  rw [hobj] at hci
  refine ⟨ci, hci, ?_⟩
  rw [hci] at hg
  exact x.rc.GetReps_hit now a x.dstate x.heap ci hg

theorem partialDelegate_NonNilOnSuccess : partialDelegate.NonNilOnSuccess := by
  intro a s h herr
  by_cases ha : a = ""
  · simp [partialDelegate, ha] at herr
  · refine ⟨h.reps.length, h.addrs.length, "reps of " ++ a, a ++ "-canonical", ?_⟩
    unfold RepFinder.Succeeds
    refine ⟨?_, ?_, ?_⟩ <;> simp [partialDelegate, ha]

/-- A sweep at `sw` does not change what `Get` answers at `sw` or later. -/
theorem Cache.Get_DeleteExpired_of_le {α : Type} (c : Cache α) {sw t : Nat} (k : String)
    (hle : sw ≤ t) : (c.DeleteExpired sw).Get t k = c.Get t k := by
  simp only [Cache.Get, Cache.DeleteExpired]
  cases hi : c.items k with
  | none => rfl
  | some item =>
    by_cases hsw : item.Expired sw = true
    · simp [hsw, item.Expired_mono hle hsw]
    · simp [hsw]

/-- What `Get` answers after a `Set`. -/
theorem Cache.Get_Set {α : Type} (c : Cache α) (now u : Nat) (k k' : String) (x : α)
    (d : Int) :
    (c.Set now k x d).Get u k' =
      if k' = k then
        (if (Item.mk x (if 0 < (if d = DefaultExpiration then c.defaultExpiration else d) then
            (now : Int) + (if d = DefaultExpiration then c.defaultExpiration else d)
            else 0)).Expired u then none else some x)
      else c.Get u k' := by
  simp only [Cache.Get, Cache.items_Set]
  by_cases hk : k' = k
  · simp [hk]
  · simp [hk]

/-- A miss on which the delegate returns a nil error and a pointer that cannot
be dereferenced ends in a panic. -/
theorem repCache.GetReps_miss_panic (r : repCache σ L A E) (now : Nat) (a : String) (s : σ)
    (h : Heap L A) (hget : r.cache.Get now a = none)
    (herr : (r.delegate.GetReps a s h).1.err = none)
    (hbad : (r.delegate.GetReps a s h).1.reps.bind
          (fun p => (r.delegate.GetReps a s h).2.2.reps[p]?) = none ∨
        (r.delegate.GetReps a s h).1.addr.bind
          (fun q => (r.delegate.GetReps a s h).2.2.addrs[q]?) = none) :
    r.GetReps now a s h =
      ⟨.panicked, r, (r.delegate.GetReps a s h).2.1, (r.delegate.GetReps a s h).2.2, [a]⟩ := by
  simp only [repCache.GetReps, hget, herr]
  rcases hbad with hb | hb
  · rw [hb]
  · rw [hb]
    split
    · next _ _ _ heq => exact absurd heq (by simp)
    · rfl

/-- A miss on which the delegate returns a nil error and two pointers that can
be dereferenced is a successful miss. -/
theorem RepFinder.Succeeds_of_reads (d : RepFinder σ L A E) (a : String) (s : σ)
    (h : Heap L A) (R : L) (C : A) (herr : (d.GetReps a s h).1.err = none)
    (hR : (d.GetReps a s h).1.reps.bind (fun p => (d.GetReps a s h).2.2.reps[p]?) = some R)
    (hC : (d.GetReps a s h).1.addr.bind (fun q => (d.GetReps a s h).2.2.addrs[q]?) = some C) :
    ∃ p q, d.Succeeds a s h p q R C := by
  cases hp : (d.GetReps a s h).1.reps with
  | none => rw [hp] at hR; exact absurd hR (by simp)
  | some p =>
    cases hq : (d.GetReps a s h).1.addr with
    | none => rw [hq] at hC; exact absurd hC (by simp)
    | some q =>
      rw [hp] at hR
      rw [hq] at hC
      refine ⟨p, q, ?_, hR, hC⟩
      cases hret : (d.GetReps a s h).1 with
      | mk x y z =>
        rw [hret] at herr hp hq
        simp only at herr hp hq
        rw [herr, hp, hq]

/-- A call depends on the `repCache` only through the delegate and the answer
of the store to `Get` for the address at that instant. -/
theorem repCache.GetReps_congr (r1 r2 : repCache σ L A E) (now : Nat) (a : String) (s : σ)
    (h : Heap L A) (hd : r1.delegate = r2.delegate)
    (hg : r1.cache.Get now a = r2.cache.Get now a) :
    (r1.GetReps now a s h).out = (r2.GetReps now a s h).out ∧
      (r1.GetReps now a s h).calls = (r2.GetReps now a s h).calls ∧
      (r1.GetReps now a s h).dstate = (r2.GetReps now a s h).dstate ∧
      (r1.GetReps now a s h).heap = (r2.GetReps now a s h).heap ∧
      (((r1.GetReps now a s h).rc = r1 ∧ (r2.GetReps now a s h).rc = r2) ∨
        ∃ v, (r1.GetReps now a s h).rc
              = { r1 with cache := r1.cache.Set now a v DefaultExpiration } ∧
            (r2.GetReps now a s h).rc
              = { r2 with cache := r2.cache.Set now a v DefaultExpiration }) := by
  cases hg2 : r2.cache.Get now a with
  | some data =>
    have hg1 : r1.cache.Get now a = some data := by rw [hg, hg2]
    cases data with
    | cacheItemPtr ci =>
      rw [r1.GetReps_hit now a s h ci hg1, r2.GetReps_hit now a s h ci hg2]
      exact ⟨rfl, rfl, rfl, rfl, Or.inl ⟨rfl, rfl⟩⟩
    | other tag =>
      rw [r1.GetReps_hit_other now a s h tag hg1, r2.GetReps_hit_other now a s h tag hg2]
      exact ⟨rfl, rfl, rfl, rfl, Or.inl ⟨rfl, rfl⟩⟩
  | none =>
    have hg1 : r1.cache.Get now a = none := by rw [hg, hg2]
    cases he : (r2.delegate.GetReps a s h).1.err with
    | some e =>
      rw [r1.GetReps_miss_err now a s h e hg1 (by rw [hd]; exact he),
        r2.GetReps_miss_err now a s h e hg2 he, hd]
      exact ⟨rfl, rfl, rfl, rfl, Or.inl ⟨rfl, rfl⟩⟩
    | none =>
      cases hR : (r2.delegate.GetReps a s h).1.reps.bind
          (fun p => (r2.delegate.GetReps a s h).2.2.reps[p]?) with
      | none =>
        rw [r1.GetReps_miss_panic now a s h hg1 (by rw [hd]; exact he)
            (Or.inl (by rw [hd]; exact hR)),
          r2.GetReps_miss_panic now a s h hg2 he (Or.inl hR), hd]
        exact ⟨rfl, rfl, rfl, rfl, Or.inl ⟨rfl, rfl⟩⟩
      | some R =>
        cases hC : (r2.delegate.GetReps a s h).1.addr.bind
            (fun q => (r2.delegate.GetReps a s h).2.2.addrs[q]?) with
        | none =>
          rw [r1.GetReps_miss_panic now a s h hg1 (by rw [hd]; exact he)
              (Or.inr (by rw [hd]; exact hC)),
            r2.GetReps_miss_panic now a s h hg2 he (Or.inr hC), hd]
          exact ⟨rfl, rfl, rfl, rfl, Or.inl ⟨rfl, rfl⟩⟩
        | some C =>
          obtain ⟨p, q, hok⟩ := r2.delegate.Succeeds_of_reads a s h R C he hR hC
          rw [r1.GetReps_miss_ok now a s h p q R C hg1 (by rw [hd]; exact hok),
            r2.GetReps_miss_ok now a s h p q R C hg2 hok, hd]
          exact ⟨rfl, rfl, rfl, rfl, Or.inr ⟨.cacheItemPtr ⟨R, C⟩, rfl, rfl⟩⟩

theorem Sys.SameView_refl (t : Nat) (x : Sys σ L A E) : Sys.SameView t x x :=
  ⟨rfl, rfl, rfl, rfl, fun _ _ _ => rfl⟩

theorem Sys.SameView_mono {t u : Nat} {x y : Sys σ L A E} (hle : t ≤ u)
    (hv : Sys.SameView t x y) : Sys.SameView u x y :=
  ⟨hv.1, hv.2.1, hv.2.2.1, hv.2.2.2.1, fun w k hw => hv.2.2.2.2 w k (le_trans hle hw)⟩

/-- The same call made in two states with the same view ends the same way and
leaves two states with the same view. -/
theorem Sys.SameView_call {t : Nat} {x y : Sys σ L A E} (hv : Sys.SameView t x y)
    (now : Nat) (a : String) (hle : t ≤ now) :
    (x.GetReps now a).out = (y.GetReps now a).out ∧
      (x.GetReps now a).calls = (y.GetReps now a).calls ∧
      (x.GetReps now a).dstate = (y.GetReps now a).dstate ∧
      (x.GetReps now a).heap = (y.GetReps now a).heap ∧
      Sys.SameView now (x.step (.call now a)) (y.step (.call now a)) := by
  obtain ⟨hd, hde, hs, hh, hget⟩ := hv
  have hc := repCache.GetReps_congr x.rc y.rc now a x.dstate x.heap hd (hget now a hle)
  unfold Sys.GetReps
  rw [← hs, ← hh]
  refine ⟨hc.1, hc.2.1, hc.2.2.1, hc.2.2.2.1, ?_⟩
  refine ⟨?_, ?_, ?_, ?_, ?_⟩
  · simp only [Sys.step, Sys.GetReps]
    rw [repCache.GetReps_delegate, repCache.GetReps_delegate, hd]
  · simp only [Sys.step, Sys.GetReps]
    rw [← hs, ← hh]
    rcases hc.2.2.2.2 with ⟨h1, h2⟩ | ⟨v, h1, h2⟩
    · rw [h1, h2]; exact hde
    · rw [h1, h2]; exact hde
  · simp only [Sys.step, Sys.GetReps]
    rw [← hs, ← hh]; exact hc.2.2.1
  · simp only [Sys.step, Sys.GetReps]
    rw [← hs, ← hh]; exact hc.2.2.2.1
  · intro u k hu
    simp only [Sys.step, Sys.GetReps]
    rw [← hs, ← hh]
    rcases hc.2.2.2.2 with ⟨h1, h2⟩ | ⟨v, h1, h2⟩
    · rw [h1, h2]; exact hget u k (le_trans hle hu)
    · rw [h1, h2]
      simp only [Cache.Get_Set, hde]
      by_cases hk : k = a
      · simp [hk]
      · simp only [hk, if_false]; exact hget u k (le_trans hle hu)

/-- A sweep in one of two states with the same view leaves them with the same
view from the instant of the sweep on. -/
theorem Sys.SameView_sweep {t : Nat} {x y : Sys σ L A E} (hv : Sys.SameView t x y)
    (sw : Nat) (hle : t ≤ sw) : Sys.SameView sw (x.step (.sweep sw)) y := by
  obtain ⟨hd, hde, hs, hh, hget⟩ := hv
  refine ⟨hd, hde, hs, hh, ?_⟩
  intro u k hu
  simp only [Sys.step, repCache.sweep]
  rw [Cache.Get_DeleteExpired_of_le _ k hu]
  exact hget u k (le_trans hle hu)

/-- With instants that never decrease, a sequence of events and the same
sequence without its sweeps lead to states in which the next call ends the
same way. -/
theorem Sys.run_without_sweeps (evs : List (Event L A)) (now : Nat) (a : String) :
    ∀ (t : Nat) (x y : Sys σ L A E), Sys.SameView t x y →
      Event.Ordered t (evs ++ [.call now a]) →
      ((x.run evs).GetReps now a).out
          = ((y.run (evs.filter (fun ev => !ev.isSweep))).GetReps now a).out ∧
        ((x.run evs).GetReps now a).calls
          = ((y.run (evs.filter (fun ev => !ev.isSweep))).GetReps now a).calls ∧
        ((x.run evs).GetReps now a).dstate
          = ((y.run (evs.filter (fun ev => !ev.isSweep))).GetReps now a).dstate ∧
        ((x.run evs).GetReps now a).heap
          = ((y.run (evs.filter (fun ev => !ev.isSweep))).GetReps now a).heap := by
  induction evs with
  | nil =>
    intro t x y hv hord
    have hle : t ≤ now := by
      simp only [List.nil_append, Event.Ordered, Event.time] at hord
      exact hord.1
    have hc := Sys.SameView_call hv now a hle
    exact ⟨hc.1, hc.2.1, hc.2.2.1, hc.2.2.2.1⟩
  | cons ev evs ih =>
    intro t x y hv hord
    cases ev with
    | call u b =>
      simp only [List.cons_append, Event.Ordered, Event.time] at hord
      simp only [Event.isSweep, Bool.not_false, List.filter_cons_of_pos, Sys.run_cons]
      exact ih u _ _ (Sys.SameView_call hv u b hord.1).2.2.2.2 hord.2
    | sweep u =>
      simp only [List.cons_append, Event.Ordered, Event.time] at hord
      simp only [Event.isSweep, Bool.not_true, Bool.false_eq_true, not_false_eq_true,
        List.filter_cons_of_neg, Sys.run_cons]
      exact ih u _ _ (Sys.SameView_sweep hv u hord.1) hord.2
    | assignReps p v =>
      simp only [List.cons_append, Event.Ordered, Event.time] at hord
      simp only [Event.isSweep, Bool.not_false, List.filter_cons_of_pos, Sys.run_cons]
      refine ih t _ _ ?_ hord
      obtain ⟨hd, hde, hs, hh, hget⟩ := hv
      exact ⟨hd, hde, hs, by simp only [Sys.step]; rw [hh], hget⟩
    | assignAddr q v =>
      simp only [List.cons_append, Event.Ordered, Event.time] at hord
      simp only [Event.isSweep, Bool.not_false, List.filter_cons_of_pos, Sys.run_cons]
      refine ih t _ _ ?_ hord
      obtain ⟨hd, hde, hs, hh, hget⟩ := hv
      exact ⟨hd, hde, hs, by simp only [Sys.step]; rw [hh], hget⟩

theorem lastResolved_snoc (k : String) (hist : List (String × L × A)) (e : String × L × A) :
    lastResolved k (hist ++ [e]) = if e.1 = k then some e.2 else lastResolved k hist := by
  simp [lastResolved, List.foldl_append]

theorem lastResolved_foldl_mem (k : String) (hist : List (String × L × A))
    (acc : Option (L × A)) (v : L × A)
    (hv : hist.foldl (fun acc e => if e.1 = k then some e.2 else acc) acc = some v) :
    acc = some v ∨ (k, v) ∈ hist := by
  induction hist generalizing acc with
  | nil => exact Or.inl hv
  | cons e rest ih =>
    simp only [List.foldl_cons] at hv
    rcases ih _ hv with h1 | h2
    · by_cases hek : e.1 = k
      · rw [if_pos hek] at h1
        right
        have he : e = (k, v) := by
          rw [← hek, ← Option.some.inj h1]
        rw [he]
        exact List.mem_cons_self _ _
      · rw [if_neg hek] at h1
        exact Or.inl h1
    · exact Or.inr (List.mem_cons_of_mem _ h2)

/-- What `lastResolved` gives is an invocation of the history. -/
theorem lastResolved_mem (k : String) (hist : List (String × L × A)) (R : L) (C : A)
    (hv : lastResolved k hist = some (R, C)) : (k, R, C) ∈ hist := by
  rcases lastResolved_foldl_mem k hist none (R, C) hv with h1 | h2
  · exact absurd h1 (by simp)
  · exact h2

/-- A call either leaves the `repCache` as it was and makes no successful
delegate invocation, or it is a successful miss: the delegate succeeded, its
result is set under the address, and the invocation is the one recorded. -/
theorem Sys.resolved_cases (x : Sys σ L A E) (now : Nat) (a : String) :
    ((x.step (.call now a)).rc = x.rc ∧ x.resolved now a = none) ∨
      ∃ p q R C, x.rc.delegate.Succeeds a x.dstate x.heap p q R C ∧
        (x.step (.call now a)).rc =
          { x.rc with
            cache := x.rc.cache.Set now a (.cacheItemPtr ⟨R, C⟩) DefaultExpiration } ∧
        x.resolved now a = some (a, R, C) := by
  cases hg : x.rc.cache.Get now a with
  | some data =>
    left
    have hfr := x.rc.GetReps_hit_frame now a x.dstate x.heap (by rw [hg]; simp)
    refine ⟨hfr.1, ?_⟩
    simp only [Sys.resolved, Sys.GetReps, hfr.2.1, List.not_mem_nil, if_false]
  | none =>
    have hcalls := x.rc.GetReps_miss_calls now a x.dstate x.heap hg
    cases he : (x.rc.delegate.GetReps a x.dstate x.heap).1.err with
    | some e =>
      left
      refine ⟨?_, ?_⟩
      · simp only [Sys.step, Sys.GetReps]
        rw [x.rc.GetReps_miss_err now a x.dstate x.heap e hg he]
      · simp only [Sys.resolved, Sys.GetReps, hcalls, he, List.mem_singleton, if_true]
    | none =>
      cases hR : (x.rc.delegate.GetReps a x.dstate x.heap).1.reps.bind
          (fun p => (x.rc.delegate.GetReps a x.dstate x.heap).2.2.reps[p]?) with
      | none =>
        left
        refine ⟨?_, ?_⟩
        · simp only [Sys.step, Sys.GetReps]
          rw [x.rc.GetReps_miss_panic now a x.dstate x.heap hg he (Or.inl hR)]
        · simp only [Sys.resolved, Sys.GetReps, hcalls, he, hR, List.mem_singleton, if_true]
      | some R =>
        cases hC : (x.rc.delegate.GetReps a x.dstate x.heap).1.addr.bind
            (fun q => (x.rc.delegate.GetReps a x.dstate x.heap).2.2.addrs[q]?) with
        | none =>
          left
          refine ⟨?_, ?_⟩
          · simp only [Sys.step, Sys.GetReps]
            rw [x.rc.GetReps_miss_panic now a x.dstate x.heap hg he (Or.inr hC)]
          · simp only [Sys.resolved, Sys.GetReps, hcalls, he, hR, hC, List.mem_singleton,
              if_true]
        | some C =>
          right
          obtain ⟨p, q, hok⟩ :=
            x.rc.delegate.Succeeds_of_reads a x.dstate x.heap R C he hR hC
          refine ⟨p, q, R, C, hok, ?_, ?_⟩
          · simp only [Sys.step, Sys.GetReps]
            rw [x.rc.GetReps_miss_ok now a x.dstate x.heap p q R C hg hok]
          · simp only [Sys.resolved, Sys.GetReps, hcalls, he, hR, hC, List.mem_singleton,
              if_true]

theorem Sys.step_Recorded (x : Sys σ L A E) (d : RepFinder σ L A E)
    (hist : List (String × L × A)) (ev : Event L A) (hx : x.Recorded d hist) :
    (x.step ev).Recorded d (hist ++ x.history [ev]) := by
  obtain ⟨hd, hitems⟩ := hx
  refine ⟨by rw [Sys.step_delegate]; exact hd, ?_⟩
  cases ev with
  | call now a =>
    intro k item hk
    simp only [Sys.history, List.append_nil]
    rcases x.resolved_cases now a with ⟨hrc, hres⟩ | ⟨p, q, R, C, _, hrc, hres⟩
    · rw [hrc] at hk
      rw [hres]
      simpa using hitems k item hk
    · rw [hrc] at hk
      rw [hres]
      simp only [Option.toList, lastResolved_snoc]
      simp only [Cache.items_Set] at hk
      by_cases hka : k = a
      · rw [if_pos hka] at hk
        exact ⟨R, C, by rw [← Option.some.inj hk], by rw [if_pos hka.symm]⟩
      · rw [if_neg hka] at hk
        rw [if_neg (fun hak => hka hak.symm)]
        exact hitems k item hk
  | sweep now =>
    intro k item hk
    simp only [Sys.history, List.append_nil]
    exact hitems k item (x.rc.cache.items_DeleteExpired_some now k item hk).1
  | assignReps p v =>
    intro k item hk
    simp only [Sys.history, List.append_nil]
    exact hitems k item hk
  | assignAddr q v =>
    intro k item hk
    simp only [Sys.history, List.append_nil]
    exact hitems k item hk

theorem Sys.history_cons (x : Sys σ L A E) (ev : Event L A) (evs : List (Event L A)) :
    x.history (ev :: evs) = x.history [ev] ++ (x.step ev).history evs := by
  cases ev <;> simp [Sys.history]

theorem Sys.run_Recorded (x : Sys σ L A E) (d : RepFinder σ L A E)
    (hist : List (String × L × A)) (evs : List (Event L A)) (hx : x.Recorded d hist) :
    (x.run evs).Recorded d (hist ++ x.history evs) := by
  induction evs generalizing x hist with
  | nil => simpa [Sys.history, Sys.run] using hx
  | cons ev evs ih =>
    rw [Sys.run_cons, Sys.history_cons, ← List.append_assoc]
    exact ih _ _ (x.step_Recorded d hist ev hx)

/-- Every invocation of the history is a delegate invocation that succeeded
with the address and the content recorded. -/
theorem Sys.history_sound (x : Sys σ L A E) (evs : List (Event L A)) (e : String × L × A)
    (he : e ∈ x.history evs) :
    ∃ s h p q, x.rc.delegate.Succeeds e.1 s h p q e.2.1 e.2.2 := by
  induction evs generalizing x with
  | nil => simp [Sys.history] at he
  | cons ev evs ih =>
    rw [Sys.history_cons, List.mem_append] at he
    rcases he with h1 | h2
    · cases ev with
      | call now a =>
        simp only [Sys.history, List.append_nil] at h1
        rcases x.resolved_cases now a with ⟨_, hres⟩ | ⟨p, q, R, C, hok, _, hres⟩
        · rw [hres] at h1; simp at h1
        · rw [hres] at h1
          simp only [Option.toList, List.mem_singleton] at h1
          rw [h1]
          exact ⟨x.dstate, x.heap, p, q, hok⟩
      | sweep now => simp [Sys.history] at h1
      | assignReps p v => simp [Sys.history] at h1
      | assignAddr q v => simp [Sys.history] at h1
    · obtain ⟨s, h, p, q, hok⟩ := ih (x.step ev) h2
      rw [Sys.step_delegate] at hok
      exact ⟨s, h, p, q, hok⟩

end Lemmas

/-! ## The claims -/

section Claims

variable {σ L A E : Type}

/-- C1 (hit transparency).  For every delegate, every `ttl > 0`, every store
state `m`, address `a` and instants `t0`, `t1` with `t1 - t0 < ttl`: if
`GetReps(a)` at `t0` is a miss on which the delegate succeeds with pointers to
`(R, C)`, then `GetReps(a)` at `t1`, whatever the delegate's state and the heap
have become, returns a nil error and pointers to cells that hold `R` and `C`,
and the delegate is not invoked during that call (no address in `calls`, the
delegate's state untouched).  The order `t0 ≤ t1` of the claim is not needed. -/
theorem hit_transparency (d : RepFinder σ L A E) (ttl gc : Int)
    (m : String → Option (Item (Value L A))) (a : String) (t0 t1 : Nat) (s : σ)
    (h : Heap L A) (p q : Nat) (R : L) (C : A)
    (httl : 0 < ttl) (hlt : (t1 : Int) - (t0 : Int) < ttl)
    (hmiss : ((NewRepCache d ttl gc).withItems m).cache.Get t0 a = none)
    (hok : d.Succeeds a s h p q R C) (s1 : σ) (h1 : Heap L A) :
    ((((NewRepCache d ttl gc).withItems m).GetReps t0 a s h).rc.GetReps t1 a s1 h1).Succeeds
        R C ∧
      ((((NewRepCache d ttl gc).withItems m).GetReps t0 a s h).rc.GetReps t1 a s1 h1).calls
        = [] ∧
      ((((NewRepCache d ttl gc).withItems m).GetReps t0 a s h).rc.GetReps t1 a s1 h1).dstate
        = s1 := by
  have hok1 : ((NewRepCache d ttl gc).withItems m).delegate.Succeeds a s h p q R C := hok
  rw [repCache.GetReps_miss_ok _ t0 a s h p q R C hmiss hok1]
  have hget : (((NewRepCache d ttl gc).withItems m).cache.Set t0 a
      (.cacheItemPtr ⟨R, C⟩) DefaultExpiration).Get t1 a = some (.cacheItemPtr ⟨R, C⟩) := by
    have hi := stored_item d ttl gc m t0 a (.cacheItemPtr ⟨R, C⟩)
    simp only [Cache.Get, hi, if_pos httl, Item.Expired]
    have hle : ¬ ((t0 : Int) + ttl < (t1 : Int)) := by omega
    simp [hle]
  rw [repCache.GetReps_hit _ t1 a s1 h1 ⟨R, C⟩ hget]
  refine ⟨⟨h1.reps.length, h1.addrs.length, rfl, ?_, ?_⟩, rfl, rfl⟩ <;> simp

/-- C1 at a concrete input: `stubDelegate`, `ttl` = 100 ms, an empty store, a
miss for `"A"` at instant 0 and the next call 50 ms later, when the delegate
state is 1 and the heap holds the two cells of the first call. -/
theorem hit_transparency_witness :
    (0 : Int) < 100000000 ∧
      ((50000000 : Nat) : Int) - ((0 : Nat) : Int) < 100000000 ∧
      ((NewRepCache stubDelegate 100000000 50000000).withItems (fun _ => none)).cache.Get
        0 "A" = none ∧
      stubDelegate.Succeeds "A" 0 emptyHeap 0 0 "reps of A" "A-canonical" ∧
      ((((NewRepCache stubDelegate 100000000 50000000).withItems (fun _ => none)).GetReps
        0 "A" 0 emptyHeap).rc.GetReps 50000000 "A" 1
        ⟨["reps of A"], ["A-canonical"]⟩).Succeeds "reps of A" "A-canonical" ∧
      ((((NewRepCache stubDelegate 100000000 50000000).withItems (fun _ => none)).GetReps
        0 "A" 0 emptyHeap).rc.GetReps 50000000 "A" 1
        ⟨["reps of A"], ["A-canonical"]⟩).calls = [] ∧
      ((((NewRepCache stubDelegate 100000000 50000000).withItems (fun _ => none)).GetReps
        0 "A" 0 emptyHeap).rc.GetReps 50000000 "A" 1
        ⟨["reps of A"], ["A-canonical"]⟩).dstate = 1 :=
  ⟨by decide, by decide, by decide, ⟨by decide, by decide, by decide⟩,
    hit_transparency stubDelegate 100000000 50000000 (fun _ => none) "A" 0 50000000 0
      emptyHeap 0 0 "reps of A" "A-canonical" (by decide) (by decide) (by decide)
      ⟨by decide, by decide, by decide⟩ 1 ⟨["reps of A"], ["A-canonical"]⟩⟩

/-- C2 (failure propagation).  For every `repCache` (every store state),
instant and address `a`: `GetReps(a)` returns a non-nil error if and only if
`a` is a miss (the map holds no item under `a`, or an expired one) and the
delegate, called with `a`, returns a non-nil error.  When it returns the error
`e`, `e` is the very value the delegate returned, the delegate was invoked
exactly once, with `a`, both pointers returned are nil (no data of an expired
item is handed out), and the store is as it was. -/
theorem failure_propagation (r : repCache σ L A E) (now : Nat) (a : String) (s : σ)
    (h : Heap L A) :
    ((r.GetReps now a s h).out.err ≠ none ↔
        (r.cache.items a = none ∨
            ∃ item, r.cache.items a = some item ∧ item.Expired now = true) ∧
          (r.delegate.GetReps a s h).1.err ≠ none) ∧
      ∀ e, (r.GetReps now a s h).out.err = some e →
        (r.delegate.GetReps a s h).1.err = some e ∧
          (r.GetReps now a s h).calls = [a] ∧
          (r.GetReps now a s h).out = .returned ⟨none, none, some e⟩ ∧
          (r.GetReps now a s h).rc = r := by
  have herr := r.GetReps_out_err now a s h
  cases hg : r.cache.Get now a with
  | some data =>
    rw [hg] at herr
    have hnm : ¬ (r.cache.items a = none ∨
        ∃ item, r.cache.items a = some item ∧ item.Expired now = true) := by
      rw [← Cache.Get_eq_none_iff, hg]; simp
    simp [herr, hnm]
  | none =>
    rw [hg] at herr
    simp only at herr
    have hm := (Cache.Get_eq_none_iff r.cache now a).1 hg
    refine ⟨by rw [herr]; simp [hm], ?_⟩
    intro e he
    rw [herr] at he
    rw [r.GetReps_miss_err now a s h e hg he]
    exact ⟨he, rfl, rfl, rfl⟩

/-- C2 at a concrete input: an expired item for `""` is in the store, and
`stubDelegate` fails on `""`. -/
theorem failure_propagation_witness :
    ((((NewRepCache stubDelegate 100 50).withItems
        (fun _ => some ⟨.cacheItemPtr ⟨"old", "old"⟩, 7⟩)).GetReps 8 "" 0 emptyHeap).out.err
          = some ⟨400, "Missing address", []⟩) ∧
      (stubDelegate.GetReps "" 0 emptyHeap).1.err = some ⟨400, "Missing address", []⟩ ∧
      (((NewRepCache stubDelegate 100 50).withItems
        (fun _ => some ⟨.cacheItemPtr ⟨"old", "old"⟩, 7⟩)).GetReps 8 "" 0 emptyHeap).calls
          = [""] ∧
      (((NewRepCache stubDelegate 100 50).withItems
        (fun _ => some ⟨.cacheItemPtr ⟨"old", "old"⟩, 7⟩)).GetReps 8 "" 0 emptyHeap).out
          = .returned ⟨none, none, some ⟨400, "Missing address", []⟩⟩ ∧
      (((NewRepCache stubDelegate 100 50).withItems
        (fun _ => some ⟨.cacheItemPtr ⟨"old", "old"⟩, 7⟩)).GetReps 8 "" 0 emptyHeap).rc
          = (NewRepCache stubDelegate 100 50).withItems
              (fun _ => some ⟨.cacheItemPtr ⟨"old", "old"⟩, 7⟩) :=
  ⟨by decide,
    (failure_propagation ((NewRepCache stubDelegate 100 50).withItems
      (fun _ => some ⟨.cacheItemPtr ⟨"old", "old"⟩, 7⟩)) 8 "" 0 emptyHeap).2
      ⟨400, "Missing address", []⟩ (by decide)⟩

/-- C3 (failure non-caching).  For every `repCache` (every store state) and
address `a`: a `GetReps(a)` call that misses and on which the delegate returns
an error leaves the `repCache`, its store included, exactly as it was, and
every `GetReps(a)` call that follows, at the same or any later instant, invokes
the delegate again, with `a`. -/
theorem failure_not_cached (r : repCache σ L A E) (now : Nat) (a : String) (s : σ)
    (h : Heap L A) (e : E) (hmiss : r.cache.Get now a = none)
    (hfail : (r.delegate.GetReps a s h).1.err = some e) :
    (r.GetReps now a s h).rc = r ∧
      ∀ (t : Nat) (s1 : σ) (h1 : Heap L A), now ≤ t →
        ((r.GetReps now a s h).rc.GetReps t a s1 h1).calls = [a] := by
  rw [r.GetReps_miss_err now a s h e hmiss hfail]
  refine ⟨rfl, ?_⟩
  intro t s1 h1 hle
  exact r.GetReps_miss_calls t a s1 h1 (r.cache.Get_eq_none_mono a hle hmiss)

/-- C3 at a concrete input: `stubDelegate` fails on `""` at instant 3; the call
at instant 4 invokes it again. -/
theorem failure_not_cached_witness :
    (NewRepCache stubDelegate 100 50).cache.Get 3 "" = none ∧
      (stubDelegate.GetReps "" 0 emptyHeap).1.err = some ⟨400, "Missing address", []⟩ ∧
      (((NewRepCache stubDelegate 100 50).GetReps 3 "" 0 emptyHeap).rc.GetReps 4 "" 1
        emptyHeap).calls = [""] :=
  ⟨by decide, by decide,
    (failure_not_cached (NewRepCache stubDelegate 100 50) 3 "" 0 emptyHeap
      ⟨400, "Missing address", []⟩ (by decide) (by decide)).2 4 1 emptyHeap (by decide)⟩

/-- C5 (expiration).  For every delegate, every `ttl > 0`, store state `m`,
address `a` and instants `t0`, `t1` with `t1 - t0 > ttl`: if `GetReps(a)` at
`t0` is a miss on which the delegate succeeds (so that an item is stored), then
after any number of sweeps, at any instants (none included), `GetReps(a)` at
`t1` invokes the delegate exactly once, with `a`, and hands on what that
invocation gives: the delegate's state and heap, the delegate's error with two
nil pointers when it fails, the delegate's two pointers with a nil error when
it succeeds.  The data of the expired item is not returned. -/
theorem expiration (d : RepFinder σ L A E) (ttl gc : Int)
    (m : String → Option (Item (Value L A))) (a : String) (t0 t1 : Nat) (s : σ)
    (h : Heap L A) (p q : Nat) (R : L) (C : A)
    (httl : 0 < ttl) (hgt : ttl < (t1 : Int) - (t0 : Int))
    (hmiss : ((NewRepCache d ttl gc).withItems m).cache.Get t0 a = none)
    (hok : d.Succeeds a s h p q R C) (sweeps : List Nat) (s1 : σ) (h1 : Heap L A) :
    ((sweeps.foldl repCache.sweep
        (((NewRepCache d ttl gc).withItems m).GetReps t0 a s h).rc).GetReps t1 a s1 h1).calls
          = [a] ∧
      ((sweeps.foldl repCache.sweep
        (((NewRepCache d ttl gc).withItems m).GetReps t0 a s h).rc).GetReps t1 a s1 h1).dstate
          = (d.GetReps a s1 h1).2.1 ∧
      ((sweeps.foldl repCache.sweep
        (((NewRepCache d ttl gc).withItems m).GetReps t0 a s h).rc).GetReps t1 a s1 h1).heap
          = (d.GetReps a s1 h1).2.2 ∧
      (∀ e, (d.GetReps a s1 h1).1.err = some e →
        ((sweeps.foldl repCache.sweep
          (((NewRepCache d ttl gc).withItems m).GetReps t0 a s h).rc).GetReps t1 a s1 h1).out
            = .returned ⟨none, none, some e⟩) ∧
      (∀ p1 q1 R1 C1, d.Succeeds a s1 h1 p1 q1 R1 C1 →
        ((sweeps.foldl repCache.sweep
          (((NewRepCache d ttl gc).withItems m).GetReps t0 a s h).rc).GetReps t1 a s1 h1).out
            = .returned ⟨some p1, some q1, none⟩) := by
  have hok1 : ((NewRepCache d ttl gc).withItems m).delegate.Succeeds a s h p q R C := hok
  have hdel : (sweeps.foldl repCache.sweep
      (((NewRepCache d ttl gc).withItems m).GetReps t0 a s h).rc).delegate = d := by
    rw [repCache.sweeps_delegate, repCache.GetReps_delegate]; rfl
  have hget : (sweeps.foldl repCache.sweep
      (((NewRepCache d ttl gc).withItems m).GetReps t0 a s h).rc).cache.Get t1 a = none := by
    apply repCache.sweeps_Get_eq_none
    rw [repCache.GetReps_miss_ok _ t0 a s h p q R C hmiss hok1]
    have hi := stored_item d ttl gc m t0 a (.cacheItemPtr ⟨R, C⟩)
    simp only [Cache.Get, hi, if_pos httl, Item.Expired]
    have h1 : (0 : Int) < (t0 : Int) + ttl := by omega
    have h2 : (t0 : Int) + ttl < (t1 : Int) := by omega
    simp [h1, h2]
  have hw := repCache.GetReps_miss_world _ t1 a s1 h1 hget
  rw [hdel] at hw
  refine ⟨repCache.GetReps_miss_calls _ t1 a s1 h1 hget, hw.1, hw.2, ?_, ?_⟩
  · intro e he
    rw [repCache.GetReps_miss_err _ t1 a s1 h1 e hget (by rw [hdel]; exact he)]
  · intro p1 q1 R1 C1 hs
    rw [repCache.GetReps_miss_ok _ t1 a s1 h1 p1 q1 R1 C1 hget (by rw [hdel]; exact hs)]

/-- C5 at the scenario of the specification: `ttl` = 100 ms, calls for `"A"` at
0, 50 ms and 150 ms; the invocation counter of `stubDelegate` reads 1, 1, 2.
The theorem is applied to the call at 150 ms, with a sweep at 120 ms before
it. -/
theorem expiration_witness :
    ((Sys.mk (NewRepCache stubDelegate 100000000 50000000) 0 emptyHeap).run
        [.call 0 "A"]).dstate = 1 ∧
      ((Sys.mk (NewRepCache stubDelegate 100000000 50000000) 0 emptyHeap).run
        [.call 0 "A", .call 50000000 "A"]).dstate = 1 ∧
      ((Sys.mk (NewRepCache stubDelegate 100000000 50000000) 0 emptyHeap).run
        [.call 0 "A", .call 50000000 "A", .call 150000000 "A"]).dstate = 2 ∧
      (0 : Int) < 100000000 ∧
      (100000000 : Int) < ((150000000 : Nat) : Int) - ((0 : Nat) : Int) ∧
      ((NewRepCache stubDelegate 100000000 50000000).withItems (fun _ => none)).cache.Get
        0 "A" = none ∧
      stubDelegate.Succeeds "A" 0 emptyHeap 0 0 "reps of A" "A-canonical" ∧
      (([120000000].foldl repCache.sweep
        (((NewRepCache stubDelegate 100000000 50000000).withItems (fun _ => none)).GetReps
          0 "A" 0 emptyHeap).rc).GetReps 150000000 "A" 1
            ⟨["reps of A"], ["A-canonical"]⟩).calls = ["A"] :=
  ⟨by decide, by decide, by decide, by decide, by decide, by decide,
    ⟨by decide, by decide, by decide⟩,
    (expiration stubDelegate 100000000 50000000 (fun _ => none) "A" 0 150000000 0 emptyHeap
      0 0 "reps of A" "A-canonical" (by decide) (by decide) (by decide)
      ⟨by decide, by decide, by decide⟩ [120000000] 1 ⟨["reps of A"], ["A-canonical"]⟩).1⟩

/-- C6 (key exactness).  For every delegate and configuration and every two
distinct strings `a ≠ b`: starting from the empty store of `NewRepCache`, a
`GetReps(a)` call (successful or not) does not make `b` a hit; the following
`GetReps(b)`, at any instant, invokes the delegate exactly once, with `b`. -/
theorem key_exactness (d : RepFinder σ L A E) (ttl gc : Int) (a b : String) (hne : a ≠ b)
    (t0 t1 : Nat) (s s1 : σ) (h h1 : Heap L A) :
    (((NewRepCache d ttl gc).GetReps t0 a s h).rc.GetReps t1 b s1 h1).calls = [b] := by
  apply repCache.GetReps_miss_calls
  rw [Cache.Get_eq_none_iff]
  left
  rw [repCache.GetReps_items_of_ne _ t0 a b s h (Ne.symm hne)]
  rfl

/-- C6 at the inputs of the specification: `"123 Main St"` and `"123  Main St"`. -/
theorem key_exactness_witness :
    "123 Main St" ≠ "123  Main St" ∧
      (((NewRepCache stubDelegate 100 50).GetReps 0 "123 Main St" 0 emptyHeap).rc.GetReps
        1 "123  Main St" 1 ⟨["reps of 123 Main St"], ["123 Main St-canonical"]⟩).calls
          = ["123  Main St"] :=
  ⟨by decide,
    key_exactness stubDelegate 100 50 "123 Main St" "123  Main St" (by decide) 0 1 0 1
      emptyHeap ⟨["reps of 123 Main St"], ["123 Main St-canonical"]⟩⟩

/-- Copy isolation of the struct values (the part of C7 that `GetReps`
achieves).  Whatever a caller assigns through
pointers to `LocalReps` and `Address` cells, those returned by an earlier
`GetReps(a)` call included, a later `GetReps(a)` while the item is live is a
hit that returns pointers to cells holding the struct values `R` and `C` the
delegate originally returned.  First part: the earlier call is the miss that
stored the item, at `t0`, and the later call is at `t1` with `t1 - t0 ≤ ttl`,
or `ttl ≤ 0`.  Second part: the earlier call is a hit at `t0` on an item that
holds `(R, C)` and is live at `t1`.  Nothing is said of storage that `R` or `C`
refer to (elements of a nested slice, targets of a nested pointer): the struct
values are copied, not what they refer to. -/
theorem copy_isolation :
    (∀ (d : RepFinder σ L A E) (ttl gc : Int) (m : String → Option (Item (Value L A)))
        (a : String) (t0 t1 : Nat) (s : σ) (h : Heap L A) (p q : Nat) (R : L) (C : A)
        (assigns : List (Event L A)),
        ((NewRepCache d ttl gc).withItems m).cache.Get t0 a = none →
        d.Succeeds a s h p q R C →
        (ttl ≤ 0 ∨ (t1 : Int) - (t0 : Int) ≤ ttl) →
        (∀ ev ∈ assigns, ev.IsAssign) →
        ((((Sys.mk ((NewRepCache d ttl gc).withItems m) s h).step (.call t0 a)).run
            assigns).GetReps t1 a).Succeeds R C) ∧
      (∀ (r : repCache σ L A E) (a : String) (t0 t1 : Nat) (s : σ) (h : Heap L A) (R : L)
        (C : A) (assigns : List (Event L A)),
        r.cache.Get t0 a = some (.cacheItemPtr ⟨R, C⟩) →
        r.cache.Get t1 a = some (.cacheItemPtr ⟨R, C⟩) →
        (∀ ev ∈ assigns, ev.IsAssign) →
        ((((Sys.mk r s h).step (.call t0 a)).run assigns).GetReps t1 a).Succeeds R C) := by
  constructor
  · intro d ttl gc m a t0 t1 s h p q R C assigns hmiss hok hlive hasg
    have hrun := Sys.run_assigns ((Sys.mk ((NewRepCache d ttl gc).withItems m) s h).step
      (.call t0 a)) assigns hasg
    unfold Sys.GetReps
    rw [hrun.1]
    apply (repCache.GetReps_hit_Succeeds _ t1 a _ _ R C _).1
    have hok1 : ((NewRepCache d ttl gc).withItems m).delegate.Succeeds a s h p q R C := hok
    simp only [Sys.step, Sys.GetReps]
    rw [repCache.GetReps_miss_ok _ t0 a s h p q R C hmiss hok1]
    exact stored_item_live d ttl gc m t0 t1 a _ hlive
  · intro r a t0 t1 s h R C assigns h0 h1 hasg
    have hrun := Sys.run_assigns ((Sys.mk r s h).step (.call t0 a)) assigns hasg
    unfold Sys.GetReps
    rw [hrun.1]
    apply (repCache.GetReps_hit_Succeeds _ t1 a _ _ R C _).1
    simp only [Sys.step, Sys.GetReps]
    rw [(r.GetReps_hit_frame t0 a s h (by rw [h0]; simp)).1]
    exact h1

/-- Copy isolation of the struct values at a concrete input: the miss for
`"A"` at instant 0 returns the pointers 0 and 0; the caller overwrites both
cells; the call at instant 10 returns the original values. -/
theorem copy_isolation_witness :
    ((((Sys.mk ((NewRepCache stubDelegate 100 50).withItems (fun _ => none)) 0
          emptyHeap).step (.call 0 "A")).run
        [.assignReps 0 "scribble", .assignAddr 0 "scribble"]).GetReps 10 "A").Succeeds
      "reps of A" "A-canonical" :=
  (@copy_isolation Nat String String APIError).1 stubDelegate 100 50
    (fun _ => none) "A" 0 10 0 emptyHeap 0 0 "reps of A" "A-canonical"
    [.assignReps 0 "scribble", .assignAddr 0 "scribble"] (by decide)
    ⟨by decide, by decide, by decide⟩ (by decide)
    (by intro ev hev; simp at hev; rcases hev with rfl | rfl <;> trivial)

/-- C7 (copy isolation), evaluated at a result with a nested collection.
With `officialDelegate` and `ttl` = 100, the miss for `"A"` at instant 0
returns the pointer 0 to a `LocalReps` whose official has the `Address` slice
`["office of A"]`.  The caller assigns `"mutated"` to that element through the
returned result.  The call for `"A"` at instant 10 is a hit (the delegate is
not invoked, the item is live) and returns the pointer 1 to a new `LocalReps`
struct; its `Address` slice has the element `"mutated"`, so its content is not
what the delegate originally returned: `GetReps` copies the struct
(reps.go:85-86, 93) and the copy shares the elements of the slice with the
item in the store. -/
theorem copy_isolation_nested_sharing :
    ((Sys.mk (NewRepCache officialDelegate 100 50) () emptyHeap).GetReps 0 "A").out
        = .returned ⟨some 0, some 1, none⟩ ∧
      ((Sys.mk (NewRepCache officialDelegate 100 50) () emptyHeap).GetReps 0 "A").heap
        = ⟨[⟨⟨"reps of A", [0]⟩⟩], ["office of A", "A-canonical"]⟩ ∧
      (((Sys.mk (NewRepCache officialDelegate 100 50) () emptyHeap).GetReps 0
          "A").heap.reps[0]?).map
        (fun v => v.content
          ((Sys.mk (NewRepCache officialDelegate 100 50) () emptyHeap).GetReps 0 "A").heap)
        = some ("reps of A", [some "office of A"]) ∧
      (((Sys.mk (NewRepCache officialDelegate 100 50) () emptyHeap).run
          [.call 0 "A", .assignAddr 0 "mutated"]).GetReps 10 "A").calls = [] ∧
      (((Sys.mk (NewRepCache officialDelegate 100 50) () emptyHeap).run
          [.call 0 "A", .assignAddr 0 "mutated"]).GetReps 10 "A").out
        = .returned ⟨some 1, some 2, none⟩ ∧
      ((((Sys.mk (NewRepCache officialDelegate 100 50) () emptyHeap).run
          [.call 0 "A", .assignAddr 0 "mutated"]).GetReps 10 "A").heap.reps[1]?).map
        (fun v => v.content
          (((Sys.mk (NewRepCache officialDelegate 100 50) () emptyHeap).run
            [.call 0 "A", .assignAddr 0 "mutated"]).GetReps 10 "A").heap)
        = some ("reps of A", [some "mutated"]) ∧
      ("reps of A", [some "mutated"]) ≠ ("reps of A", [some "office of A"]) := by
  refine ⟨by decide, by decide, by decide, by decide, by decide, by decide, by decide⟩

/-- C8 (a hit does not mutate the store), as amended.  First part: for every
`repCache` (every store state), instant and address `a` under which a live
item is held, the `repCache` after `GetReps(a)`, its store with all items and
expiration stamps included, equals the one before.  Second part: for
`ttl > 0`, after a miss at `t0` on which the delegate succeeds, and after any
number of further `GetReps(a)` calls at instants up to `t0 + ttl`, the
`repCache` is still the one the miss left and the delegate's state is still
what the miss left (all those calls were hits), and at every instant `t1`
later than `t0 + ttl` the key `a` is a miss: `GetReps(a)` invokes the
delegate. -/
theorem hit_preserves_store :
    (∀ (r : repCache σ L A E) (now : Nat) (a : String) (s : σ) (h : Heap L A),
        r.cache.Get now a ≠ none → (r.GetReps now a s h).rc = r) ∧
      (∀ (d : RepFinder σ L A E) (ttl gc : Int) (m : String → Option (Item (Value L A)))
        (a : String) (t0 : Nat) (s : σ) (h : Heap L A) (p q : Nat) (R : L) (C : A)
        (ts : List Nat) (t1 : Nat) (s1 : σ) (h1 : Heap L A),
        0 < ttl →
        ((NewRepCache d ttl gc).withItems m).cache.Get t0 a = none →
        d.Succeeds a s h p q R C →
        (∀ t ∈ ts, (t : Int) ≤ (t0 : Int) + ttl) →
        (t0 : Int) + ttl < (t1 : Int) →
        (((Sys.mk ((NewRepCache d ttl gc).withItems m) s h).step (.call t0 a)).run
            (ts.map (fun t => Event.call t a))).rc
          = (((NewRepCache d ttl gc).withItems m).GetReps t0 a s h).rc ∧
        (((Sys.mk ((NewRepCache d ttl gc).withItems m) s h).step (.call t0 a)).run
            (ts.map (fun t => Event.call t a))).dstate
          = (((NewRepCache d ttl gc).withItems m).GetReps t0 a s h).dstate ∧
        (((Sys.mk ((NewRepCache d ttl gc).withItems m) s h).step (.call t0 a)).run
            (ts.map (fun t => Event.call t a))).rc.cache.Get t1 a = none ∧
        ((((Sys.mk ((NewRepCache d ttl gc).withItems m) s h).step (.call t0 a)).run
            (ts.map (fun t => Event.call t a))).rc.GetReps t1 a s1 h1).calls = [a]) := by
  constructor
  · intro r now a s h hget
    exact (r.GetReps_hit_frame now a s h hget).1
  · intro d ttl gc m a t0 s h p q R C ts t1 s1 h1 httl hmiss hok hts ht1
    have hok1 : ((NewRepCache d ttl gc).withItems m).delegate.Succeeds a s h p q R C := hok
    have hrc : ((Sys.mk ((NewRepCache d ttl gc).withItems m) s h).step (.call t0 a)).rc
        = { (NewRepCache d ttl gc).withItems m with
            cache := ((NewRepCache d ttl gc).withItems m).cache.Set t0 a
              (.cacheItemPtr ⟨R, C⟩) DefaultExpiration } := by
      simp only [Sys.step, Sys.GetReps]
      rw [repCache.GetReps_miss_ok _ t0 a s h p q R C hmiss hok1]
    have hhits : ∀ t ∈ ts,
        ((Sys.mk ((NewRepCache d ttl gc).withItems m) s h).step (.call t0 a)).rc.cache.Get t a
          ≠ none := by
      intro t ht
      rw [hrc]
      have hl := stored_item_live d ttl gc m t0 t a (.cacheItemPtr ⟨R, C⟩)
        (Or.inr (by have := hts t ht; omega))
      simp only at hl ⊢
      rw [hl]
      simp
    have hrun := Sys.run_hits _ a ts hhits
    have hget1 : ((Sys.mk ((NewRepCache d ttl gc).withItems m) s h).step
        (.call t0 a)).rc.cache.Get t1 a = none := by
      rw [hrc]
      have hi := stored_item d ttl gc m t0 a (.cacheItemPtr ⟨R, C⟩)
      simp only [Cache.Get, hi, if_pos httl, Item.Expired]
      have h2 : (0 : Int) < (t0 : Int) + ttl := by omega
      simp [h2, ht1]
    rw [hrun.1, hrun.2]
    exact ⟨rfl, rfl, hget1, repCache.GetReps_miss_calls _ t1 a s1 h1 hget1⟩

/-- C8, as amended, at a concrete input: `ttl` = 100, a miss for `"A"` at
instant 0, hits at 10, 60 and 100, and a miss at 101. -/
theorem hit_preserves_store_witness :
    (((Sys.mk ((NewRepCache stubDelegate 100 50).withItems (fun _ => none)) 0 emptyHeap).step
        (.call 0 "A")).run ([10, 60, 100].map (fun t => Event.call t "A"))).dstate = 1 ∧
      ((((Sys.mk ((NewRepCache stubDelegate 100 50).withItems (fun _ => none)) 0
          emptyHeap).step (.call 0 "A")).run
        ([10, 60, 100].map (fun t => Event.call t "A"))).rc.GetReps 101 "A" 1 emptyHeap).calls
          = ["A"] :=
  ⟨by decide,
    ((@hit_preserves_store Nat String String APIError).2 stubDelegate 100 50 (fun _ => none)
      "A" 0 0 emptyHeap 0 0 "reps of A" "A-canonical" [10, 60, 100] 101 1 emptyHeap
      (by decide) (by decide) ⟨by decide, by decide, by decide⟩ (by decide)
      (by decide)).2.2.2⟩

/-- C8 as stated fails for `ttl = 0`: the item stored for `"A"` at instant 5
by a resolver built with `NewRepCache(stubDelegate, 0, 0)` is not a miss at
instant 6, which is later than `5 + 0`: the call at 6 is a hit and the
delegate is not invoked. -/
theorem hit_preserves_store_counterexample :
    (NewRepCache stubDelegate 0 0).cache.Get 5 "A" = none ∧
      ((Sys.mk (NewRepCache stubDelegate 0 0) 0 emptyHeap).GetReps 5 "A").calls = ["A"] ∧
      ((5 : Int) + 0 < 6) ∧
      ((Sys.mk (NewRepCache stubDelegate 0 0) 0 emptyHeap).run [.call 5 "A"]).rc.cache.Get
          6 "A" ≠ none ∧
      (((Sys.mk (NewRepCache stubDelegate 0 0) 0 emptyHeap).run [.call 5 "A"]).GetReps
          6 "A").calls = [] := by
  refine ⟨by decide, by decide, by decide, by decide, by decide⟩

/-- C9 (transparency against the delegate).  For a delegate that is a function
`f` of the address, every configuration, every finite sequence of events
(calls at any instants, sweeps, assignments by callers) from the empty store
of `NewRepCache`, and every call `GetReps(a)` made after it: when `f` gives a
result and address for `a`, the call returns a nil error and pointers to cells
that hold them; when `f` gives an error for `a`, the call returns that error
and two nil pointers.  The instants need not be non-decreasing. -/
theorem transparency (d : RepFinder σ L A E) (f : String → Answer L A E)
    (hf : d.Computes f) (ttl gc : Int) (s0 : σ) (h0 : Heap L A)
    (evs : List (Event L A)) (now : Nat) (a : String) :
    match f a with
    | .ok R C => (((Sys.mk (NewRepCache d ttl gc) s0 h0).run evs).GetReps now a).Succeeds R C
    | .fail e =>
      (((Sys.mk (NewRepCache d ttl gc) s0 h0).run evs).GetReps now a).out
        = .returned ⟨none, none, some e⟩ := by
  have hinit : (Sys.mk (NewRepCache d ttl gc) s0 h0).Agrees d f :=
    ⟨rfl, fun k item hk => by simp [NewRepCache, Cache.New] at hk⟩
  obtain ⟨hd, hitems⟩ := Sys.run_Agrees _ d f hf evs hinit
  generalize (Sys.mk (NewRepCache d ttl gc) s0 h0).run evs = x at hd hitems
  have hfa := hf a x.dstate x.heap
  unfold Sys.GetReps
  cases hg : x.rc.cache.Get now a with
  | some data =>
    obtain ⟨item, hi, _, hobj⟩ := (Cache.Get_eq_some_iff _ _ _ _).1 hg
    obtain ⟨R, C, hRC, hans⟩ := hitems a item hi
    rw [hans]
    rw [hobj] at hRC
    rw [hRC] at hg
    exact (x.rc.GetReps_hit_Succeeds now a x.dstate x.heap R C hg).1
  | none =>
    cases hans : f a with
    | ok R C =>
      rw [hans] at hfa
      obtain ⟨p, q, hok⟩ := hfa
      rw [← hd] at hok
      simp only
      rw [x.rc.GetReps_miss_ok now a x.dstate x.heap p q R C hg hok]
      exact ⟨p, q, rfl, hok.2.1, hok.2.2⟩
    | fail e =>
      rw [hans] at hfa
      simp only at hfa ⊢
      rw [← hd] at hfa
      rw [x.rc.GetReps_miss_err now a x.dstate x.heap e hg hfa]

/-- C9 at a concrete input: `stubDelegate`, which is the function `stubAnswer`,
after a call, a sweep, an assignment by the caller and a failed call; the call
for `"A"` at instant 60 succeeds with the delegate's content, and the call for
`""` fails with the delegate's error. -/
theorem transparency_witness :
    stubDelegate.Computes stubAnswer ∧
      (((Sys.mk (NewRepCache stubDelegate 100 50) 0 emptyHeap).run
          [.call 0 "A", .sweep 50, .assignReps 0 "scribble", .call 55 ""]).GetReps
        60 "A").Succeeds "reps of A" "A-canonical" ∧
      (((Sys.mk (NewRepCache stubDelegate 100 50) 0 emptyHeap).run
          [.call 0 "A", .sweep 50, .assignReps 0 "scribble", .call 55 ""]).GetReps
        60 "").out = .returned ⟨none, none, some ⟨400, "Missing address", []⟩⟩ :=
  ⟨stubDelegate_Computes,
    transparency stubDelegate stubAnswer stubDelegate_Computes 100 50 0 emptyHeap
      [.call 0 "A", .sweep 50, .assignReps 0 "scribble", .call 55 ""] 60 "A",
    transparency stubDelegate stubAnswer stubDelegate_Computes 100 50 0 emptyHeap
      [.call 0 "A", .sweep 50, .assignReps 0 "scribble", .call 55 ""] 60 ""⟩

/-- C10 (`APIError.Error` rendering).  For every `APIError`, `Error()` is the
decimal rendering of the code, one space, the message, followed, for each
sub-error in list order whose message differs from the top-level message, by
the segment `;[domain=D, reason=R: M]` of its domain, reason and message; a
sub-error whose message equals the top-level message contributes nothing, so
when there is no sub-error, or all their messages equal the top-level one, the
output is the code, one space and the message. -/
theorem APIError_Error_rendering (ae : APIError) :
    ae.Error =
        toString ae.Code ++ " " ++ ae.Message ++
          String.join ((ae.Errors.filter (fun e => decide (e.Message ≠ ae.Message))).map
            (fun e =>
              ";[domain=" ++ e.Domain ++ ", reason=" ++ e.Reason ++ ": " ++ e.Message ++ "]")) ∧
      ((∀ e ∈ ae.Errors, e.Message = ae.Message) →
        ae.Error = toString ae.Code ++ " " ++ ae.Message) := by
  have hloop := APIError.loop_eq ae.Message ae.Errors (toString ae.Code ++ " " ++ ae.Message)
  refine ⟨hloop, ?_⟩
  intro hall
  have hfil : ae.Errors.filter (fun e => decide (e.Message ≠ ae.Message)) = [] := by
    rw [List.filter_eq_nil_iff]
    intro e he
    simp [hall e he]
  unfold APIError.Error
  rw [hloop, hfil]
  simp [String.join]

/-- C10 at a concrete input: code 404, two sub-errors, the first with the
top-level message. -/
theorem APIError_Error_rendering_witness :
    (APIError.mk 404 "Not Found"
        [⟨"global", "notFound", "Not Found"⟩, ⟨"civic", "parseError", "Failed to parse"⟩]).Error
      = "404 Not Found;[domain=civic, reason=parseError: Failed to parse]" ∧
    (APIError.mk (-3) "Not Found" [⟨"global", "notFound", "Not Found"⟩]).Error
      = "-3 Not Found" :=
  ⟨by decide,
    ((APIError_Error_rendering
      (APIError.mk (-3) "Not Found" [⟨"global", "notFound", "Not Found"⟩])).2
      (by decide)).trans (by decide)⟩

/-- C11 (configurations with `ttl ≤ 0`), as amended.  For a caching rep finder
built by `NewRepCache` with `ttl ≤ 0`, in any store state `m`: once
`GetReps(a)` has missed and the delegate has succeeded with `(R, C)`, the item
is stored with no deadline, and after any sequence of events whatever (calls
for any address at any instants, sweeps, assignments by callers) `GetReps(a)`
at any instant is served from the store: it returns pointers to `R` and `C`
and does not invoke the delegate. -/
theorem nonpositive_ttl_never_expires (d : RepFinder σ L A E) (ttl gc : Int)
    (m : String → Option (Item (Value L A))) (a : String) (t0 : Nat) (s : σ)
    (h : Heap L A) (p q : Nat) (R : L) (C : A) (httl : ttl ≤ 0)
    (hmiss : ((NewRepCache d ttl gc).withItems m).cache.Get t0 a = none)
    (hok : d.Succeeds a s h p q R C) (evs : List (Event L A)) (t1 : Nat) :
    ((((Sys.mk ((NewRepCache d ttl gc).withItems m) s h).step (.call t0 a)).run
        evs).GetReps t1 a).calls = [] ∧
      ((((Sys.mk ((NewRepCache d ttl gc).withItems m) s h).step (.call t0 a)).run
        evs).GetReps t1 a).Succeeds R C := by
  have hok1 : ((NewRepCache d ttl gc).withItems m).delegate.Succeeds a s h p q R C := hok
  have hi0 : ((Sys.mk ((NewRepCache d ttl gc).withItems m) s h).step
      (.call t0 a)).rc.cache.items a = some ⟨.cacheItemPtr ⟨R, C⟩, 0⟩ := by
    simp only [Sys.step, Sys.GetReps]
    rw [repCache.GetReps_miss_ok _ t0 a s h p q R C hmiss hok1]
    have hi := stored_item d ttl gc m t0 a (.cacheItemPtr ⟨R, C⟩)
    rw [if_neg (not_lt.mpr httl)] at hi
    exact hi
  have hi := Sys.run_keeps_unexpiring _ evs a _ hi0
  have hget := Cache.Get_of_unexpiring _ t1 a _ hi
  have hs := repCache.GetReps_hit_Succeeds _ t1 a
    (((Sys.mk ((NewRepCache d ttl gc).withItems m) s h).step (.call t0 a)).run evs).dstate
    (((Sys.mk ((NewRepCache d ttl gc).withItems m) s h).step (.call t0 a)).run evs).heap
    R C hget
  exact ⟨hs.2, hs.1⟩

/-- C11, as amended, at a concrete input: `ttl` = 0, a miss for `"A"` at
instant 5, then a sweep and a call for another address; the call for `"A"` at
instant 1000000 does not invoke the delegate. -/
theorem nonpositive_ttl_never_expires_witness :
    (0 : Int) ≤ 0 ∧
      ((NewRepCache stubDelegate 0 50).withItems (fun _ => none)).cache.Get 5 "A" = none ∧
      stubDelegate.Succeeds "A" 0 emptyHeap 0 0 "reps of A" "A-canonical" ∧
      ((((Sys.mk ((NewRepCache stubDelegate 0 50).withItems (fun _ => none)) 0
          emptyHeap).step (.call 5 "A")).run
        [.sweep 50, .call 60 "B"]).GetReps 1000000 "A").calls = [] ∧
      ((((Sys.mk ((NewRepCache stubDelegate 0 50).withItems (fun _ => none)) 0
          emptyHeap).step (.call 5 "A")).run
        [.sweep 50, .call 60 "B"]).GetReps 1000000 "A").Succeeds
          "reps of A" "A-canonical" :=
  ⟨by decide, by decide, ⟨by decide, by decide, by decide⟩,
    nonpositive_ttl_never_expires stubDelegate 0 50 (fun _ => none) "A" 5 0 emptyHeap 0 0
      "reps of A" "A-canonical" (by decide) (by decide) ⟨by decide, by decide, by decide⟩
      [.sweep 50, .call 60 "B"] 1000000⟩

/-- C11 as stated fails: with `NewRepCache(stubDelegate, -1000, 50)`, the call
`GetReps("A")` at instant 0 invokes the delegate and succeeds, and the call
`GetReps("A")` that follows, at instant 100, does not invoke the delegate
again: it is served from the store, and the invocation counter stays at 1. -/
theorem nonpositive_ttl_counterexample :
    ((Sys.mk (NewRepCache stubDelegate (-1000) 50) 0 emptyHeap).GetReps 0 "A").calls = ["A"] ∧
      ((Sys.mk (NewRepCache stubDelegate (-1000) 50) 0 emptyHeap).GetReps 0 "A").out
        = .returned ⟨some 0, some 0, none⟩ ∧
      (((Sys.mk (NewRepCache stubDelegate (-1000) 50) 0 emptyHeap).run
        [.call 0 "A"]).GetReps 100 "A").calls = [] ∧
      (((Sys.mk (NewRepCache stubDelegate (-1000) 50) 0 emptyHeap).run
        [.call 0 "A"]).GetReps 100 "A").out = .returned ⟨some 1, some 1, none⟩ ∧
      ((Sys.mk (NewRepCache stubDelegate (-1000) 50) 0 emptyHeap).run
        [.call 0 "A", .call 100 "A"]).dstate = 1 := by
  refine ⟨by decide, by decide, by decide, by decide, by decide⟩

/-- C12 (a sweep only reclaims memory).  First part: a sweep at `t` deletes
exactly the items that have expired at `t`; every other item is left as it
was.  Second part: for every `repCache` (every store state), a sweep at
`tsw` and a call `GetReps(a)` at `t`, not before the sweep: the call ends the
same way whether or not the sweep ran (the same results, the same delegate
invocations, the same delegate state and heap), and afterwards the store gives
the same answer for every key at every instant from `t` on.  Third part: for a
sequence of events at instants that never decrease, a rep finder built with any
`gc` that undergoes the whole sequence and one built with `gc = 0` that
undergoes the sequence without its sweeps end the next call the same way. -/
theorem sweep_only_reclaims :
    (∀ (c : Cache (Value L A)) (t : Nat) (k : String),
        ((c.DeleteExpired t).items k = none ↔
          c.items k = none ∨ ∃ item, c.items k = some item ∧ item.Expired t = true) ∧
        (∀ item, c.items k = some item → item.Expired t = false →
          (c.DeleteExpired t).items k = some item)) ∧
      (∀ (r : repCache σ L A E) (tsw t : Nat) (a : String) (s : σ) (h : Heap L A),
        tsw ≤ t →
        ((r.sweep tsw).GetReps t a s h).out = (r.GetReps t a s h).out ∧
        ((r.sweep tsw).GetReps t a s h).calls = (r.GetReps t a s h).calls ∧
        ((r.sweep tsw).GetReps t a s h).dstate = (r.GetReps t a s h).dstate ∧
        ((r.sweep tsw).GetReps t a s h).heap = (r.GetReps t a s h).heap ∧
        ∀ (u : Nat) (k : String), t ≤ u →
          ((r.sweep tsw).GetReps t a s h).rc.cache.Get u k
            = (r.GetReps t a s h).rc.cache.Get u k) ∧
      (∀ (d : RepFinder σ L A E) (ttl gc : Int) (s0 : σ) (h0 : Heap L A)
        (evs : List (Event L A)) (now : Nat) (a : String),
        Event.Ordered 0 (evs ++ [.call now a]) →
        (((Sys.mk (NewRepCache d ttl gc) s0 h0).run evs).GetReps now a).out
          = (((Sys.mk (NewRepCache d ttl 0) s0 h0).run
              (evs.filter (fun ev => !ev.isSweep))).GetReps now a).out ∧
        (((Sys.mk (NewRepCache d ttl gc) s0 h0).run evs).GetReps now a).calls
          = (((Sys.mk (NewRepCache d ttl 0) s0 h0).run
              (evs.filter (fun ev => !ev.isSweep))).GetReps now a).calls ∧
        (((Sys.mk (NewRepCache d ttl gc) s0 h0).run evs).GetReps now a).dstate
          = (((Sys.mk (NewRepCache d ttl 0) s0 h0).run
              (evs.filter (fun ev => !ev.isSweep))).GetReps now a).dstate ∧
        (((Sys.mk (NewRepCache d ttl gc) s0 h0).run evs).GetReps now a).heap
          = (((Sys.mk (NewRepCache d ttl 0) s0 h0).run
              (evs.filter (fun ev => !ev.isSweep))).GetReps now a).heap) := by
  refine ⟨?_, ?_, ?_⟩
  · intro c t k
    constructor
    · simp only [Cache.DeleteExpired]
      cases hi : c.items k with
      | none => simp
      | some item => by_cases hx : item.Expired t <;> simp [hx]
    · intro item hi hx
      simp [Cache.DeleteExpired, hi, hx]
  · intro r tsw t a s h hle
    have hv : Sys.SameView tsw ((Sys.mk r s h).step (.sweep tsw)) (Sys.mk r s h) :=
      Sys.SameView_sweep (Sys.SameView_refl 0 _) tsw (Nat.zero_le _)
    have hc := Sys.SameView_call hv t a hle
    exact ⟨hc.1, hc.2.1, hc.2.2.1, hc.2.2.2.1, hc.2.2.2.2.2.2.2.2⟩
  · intro d ttl gc s0 h0 evs now a hord
    exact Sys.run_without_sweeps evs now a 0 _ _ (Sys.SameView_refl 0 _) hord

/-- C12 at a concrete input: `ttl` = 100; a call for `"A"` at 0, a sweep at 150
(which deletes the item), a call for `"B"` at 160 and a sweep at 300; the call
for `"A"` at 310 returns the pointers 2 and 2 after invoking the delegate, with
the sweeps and without them. -/
theorem sweep_only_reclaims_witness :
    Event.Ordered 0
        ([Event.call 0 "A", .sweep 150, .call 160 "B", .sweep 300] ++
          [(Event.call 310 "A" : Event String String)]) ∧
      ((Sys.mk (NewRepCache stubDelegate 100 50) 0 emptyHeap).run
        [.call 0 "A", .sweep 150]).rc.cache.items "A" = none ∧
      ((Sys.mk (NewRepCache stubDelegate 100 0) 0 emptyHeap).run
        [.call 0 "A"]).rc.cache.items "A"
          = some ⟨.cacheItemPtr ⟨"reps of A", "A-canonical"⟩, 100⟩ ∧
      (((Sys.mk (NewRepCache stubDelegate 100 0) 0 emptyHeap).run
        ([Event.call 0 "A", .sweep 150, .call 160 "B", .sweep 300].filter
          (fun ev => !ev.isSweep))).GetReps 310 "A").out
            = .returned ⟨some 2, some 2, none⟩ ∧
      (((Sys.mk (NewRepCache stubDelegate 100 50) 0 emptyHeap).run
        [.call 0 "A", .sweep 150, .call 160 "B", .sweep 300]).GetReps 310 "A").out
          = (((Sys.mk (NewRepCache stubDelegate 100 0) 0 emptyHeap).run
              ([Event.call 0 "A", .sweep 150, .call 160 "B", .sweep 300].filter
                (fun ev => !ev.isSweep))).GetReps 310 "A").out :=
  ⟨by simp [Event.Ordered, Event.time], by decide, by decide, by decide,
    ((@sweep_only_reclaims Nat String String APIError).2.2 stubDelegate 100 50 0 emptyHeap
      [.call 0 "A", .sweep 150, .call 160 "B", .sweep 300] 310 "A"
      (by simp [Event.Ordered, Event.time])).1⟩

/-- C14 (store invariant).  In every state reached from the empty store of
`NewRepCache` by any sequence of events (`GetReps` calls at any instants,
sweeps, assignments by callers), every item present under a key `k` is a
`cacheItem` whose content `(R, C)` is what the most recent successful delegate
invocation with the address `k` returned; that invocation is one of those made
during the sequence, and it is an invocation of the delegate with `k` that
returned a nil error and pointers to `R` and `C`.  The history holds
successful invocations only, each under the address it was made with, so no
item comes from a failed resolution or from a call for another key. -/
theorem store_invariant (d : RepFinder σ L A E) (ttl gc : Int) (s0 : σ) (h0 : Heap L A)
    (evs : List (Event L A)) (k : String) (item : Item (Value L A))
    (hk : ((Sys.mk (NewRepCache d ttl gc) s0 h0).run evs).rc.cache.items k = some item) :
    ∃ R C, item.Object = .cacheItemPtr ⟨R, C⟩ ∧
      lastResolved k ((Sys.mk (NewRepCache d ttl gc) s0 h0).history evs) = some (R, C) ∧
      (k, R, C) ∈ (Sys.mk (NewRepCache d ttl gc) s0 h0).history evs ∧
      ∃ s h p q, d.Succeeds k s h p q R C := by
  have hinit : (Sys.mk (NewRepCache d ttl gc) s0 h0).Recorded d [] :=
    ⟨rfl, fun k item hk => by simp [NewRepCache, Cache.New] at hk⟩
  have hrec := Sys.run_Recorded _ d [] evs hinit
  rw [List.nil_append] at hrec
  obtain ⟨R, C, hobj, hlast⟩ := hrec.2 k item hk
  have hmem := lastResolved_mem k _ R C hlast
  exact ⟨R, C, hobj, hlast, hmem, Sys.history_sound _ evs (k, R, C) hmem⟩

/-- C14 at a concrete input: `versionedDelegate` with `ttl` = 100; a successful
miss for `"A"` (result 0), a failed call for `""`, a second successful miss
for `"A"` after expiry (result 2), a sweep and a successful miss for `"B"`
(result 3).  The item under `"A"` holds the result 2 of the most recent
successful invocation with `"A"`. -/
theorem store_invariant_witness :
    ((Sys.mk (NewRepCache versionedDelegate 100 50) 0 emptyHeap).run
        [.call 0 "A", .call 1 "", .call 150 "A", .sweep 160, .call 170 "B"]).rc.cache.items
          "A" = some ⟨.cacheItemPtr ⟨2, "A-canonical"⟩, 250⟩ ∧
      (Sys.mk (NewRepCache versionedDelegate 100 50) 0 emptyHeap).history
        [.call 0 "A", .call 1 "", .call 150 "A", .sweep 160, .call 170 "B"]
          = [("A", 0, "A-canonical"), ("A", 2, "A-canonical"), ("B", 3, "B-canonical")] ∧
      (∃ R C, (Item.mk (Value.cacheItemPtr ⟨2, "A-canonical"⟩) 250).Object
          = .cacheItemPtr ⟨R, C⟩ ∧
        lastResolved "A" ((Sys.mk (NewRepCache versionedDelegate 100 50) 0 emptyHeap).history
          [.call 0 "A", .call 1 "", .call 150 "A", .sweep 160, .call 170 "B"]) = some (R, C) ∧
        ("A", R, C) ∈ (Sys.mk (NewRepCache versionedDelegate 100 50) 0 emptyHeap).history
          [.call 0 "A", .call 1 "", .call 150 "A", .sweep 160, .call 170 "B"] ∧
        ∃ s h p q, versionedDelegate.Succeeds "A" s h p q R C) :=
  ⟨by decide, by decide,
    store_invariant versionedDelegate 100 50 0 emptyHeap
      [.call 0 "A", .call 1 "", .call 150 "A", .sweep 160, .call 170 "B"] "A"
      ⟨.cacheItemPtr ⟨2, "A-canonical"⟩, 250⟩ (by decide)⟩

/-- C15 (frame of a successful miss).  For every `repCache` (every store
state), instant and address `a`: a `GetReps(a)` call that misses and on which
the delegate succeeds leaves, for every key `b ≠ a`, the item under `b` as it
was (present or not, with the same content and the same expiration stamp);
the delegate and the default expiration of the store are as they were too. -/
theorem successful_miss_frame (r : repCache σ L A E) (now : Nat) (a : String) (s : σ)
    (h : Heap L A) (p q : Nat) (R : L) (C : A) (hmiss : r.cache.Get now a = none)
    (hok : r.delegate.Succeeds a s h p q R C) (b : String) (hne : b ≠ a) :
    (r.GetReps now a s h).rc.cache.items b = r.cache.items b ∧
      (r.GetReps now a s h).rc.delegate = r.delegate ∧
      (r.GetReps now a s h).rc.cache.defaultExpiration = r.cache.defaultExpiration := by
  rw [r.GetReps_miss_ok now a s h p q R C hmiss hok]
  exact ⟨Cache.items_Set_of_ne _ _ _ _ hne, rfl, rfl⟩

/-- C15 at a concrete input: the store holds an item for `"B"` stamped 7 and
nothing else; the successful miss for `"A"` at instant 3 stores an item under
`"A"` and leaves the item under `"B"` as it was. -/
theorem successful_miss_frame_witness :
    ((NewRepCache stubDelegate 100 50).withItems
        (fun k => if k = "B" then some ⟨.cacheItemPtr ⟨"rb", "cb"⟩, 7⟩ else none)).cache.Get
          3 "A" = none ∧
      stubDelegate.Succeeds "A" 0 emptyHeap 0 0 "reps of A" "A-canonical" ∧
      "B" ≠ "A" ∧
      (((NewRepCache stubDelegate 100 50).withItems
        (fun k => if k = "B" then some ⟨.cacheItemPtr ⟨"rb", "cb"⟩, 7⟩ else none)).GetReps
          3 "A" 0 emptyHeap).rc.cache.items "A"
        = some ⟨.cacheItemPtr ⟨"reps of A", "A-canonical"⟩, 103⟩ ∧
      (((NewRepCache stubDelegate 100 50).withItems
        (fun k => if k = "B" then some ⟨.cacheItemPtr ⟨"rb", "cb"⟩, 7⟩ else none)).GetReps
          3 "A" 0 emptyHeap).rc.cache.items "B"
        = ((NewRepCache stubDelegate 100 50).withItems
            (fun k => if k = "B" then some ⟨.cacheItemPtr ⟨"rb", "cb"⟩, 7⟩
              else none)).cache.items "B" :=
  ⟨by decide, ⟨by decide, by decide, by decide⟩, by decide, by decide,
    (successful_miss_frame ((NewRepCache stubDelegate 100 50).withItems
        (fun k => if k = "B" then some ⟨.cacheItemPtr ⟨"rb", "cb"⟩, 7⟩ else none))
      3 "A" 0 emptyHeap 0 0 "reps of A" "A-canonical" (by decide)
      ⟨by decide, by decide, by decide⟩ "B" (by decide)).1⟩

/-- C16 (result shape).  Assume the delegate returns a non-nil result and a
non-nil address whenever it returns a nil error.  Then, in every state reached
from the empty store of `NewRepCache` by any sequence of events, every
`GetReps` call returns, and what it returns is either two non-nil pointers (to
a result `R` and an address `C`) with a nil error, or two nil pointers with a
non-nil error, never a mixture.  In particular, on a miss on which the
delegate returns the error `e`, the call returns `(nil, nil, e)` whatever
pointers the delegate returned alongside, and the call never panics: the
dereferences of reps.go:93 do not fail. -/
theorem result_shape (d : RepFinder σ L A E) (hd : d.NonNilOnSuccess) (ttl gc : Int)
    (s0 : σ) (h0 : Heap L A) (evs : List (Event L A)) (now : Nat) (a : String) :
    ((∃ R C, (((Sys.mk (NewRepCache d ttl gc) s0 h0).run evs).GetReps now a).Succeeds R C) ∨
        (∃ e, (((Sys.mk (NewRepCache d ttl gc) s0 h0).run evs).GetReps now a).out
          = .returned ⟨none, none, some e⟩)) ∧
      (∀ e, ((Sys.mk (NewRepCache d ttl gc) s0 h0).run evs).rc.cache.Get now a = none →
        (d.GetReps a ((Sys.mk (NewRepCache d ttl gc) s0 h0).run evs).dstate
          ((Sys.mk (NewRepCache d ttl gc) s0 h0).run evs).heap).1.err = some e →
        (((Sys.mk (NewRepCache d ttl gc) s0 h0).run evs).GetReps now a).out
          = .returned ⟨none, none, some e⟩) ∧
      (((Sys.mk (NewRepCache d ttl gc) s0 h0).run evs).GetReps now a).out ≠ .panicked := by
  have hty := Sys.run_Typed _ evs (Sys.init_Typed d ttl gc s0 h0)
  have hdel : ((Sys.mk (NewRepCache d ttl gc) s0 h0).run evs).rc.delegate = d :=
    Sys.run_delegate _ evs
  generalize (Sys.mk (NewRepCache d ttl gc) s0 h0).run evs = x at hty hdel
  have hmisserr : ∀ e, x.rc.cache.Get now a = none →
      (d.GetReps a x.dstate x.heap).1.err = some e →
      (x.GetReps now a).out = .returned ⟨none, none, some e⟩ := by
    intro e hg he
    rw [← hdel] at he
    unfold Sys.GetReps
    rw [x.rc.GetReps_miss_err now a x.dstate x.heap e hg he]
  cases hg : x.rc.cache.Get now a with
  | some data =>
    obtain ⟨ci, _, hst⟩ := x.GetReps_hit_of_Typed hty now a data hg
    refine ⟨Or.inl ⟨ci.reps, ci.addr, ?_⟩, fun e hn => absurd hn (by simp), ?_⟩
    · rw [hst]
      exact ⟨x.heap.reps.length, x.heap.addrs.length, rfl, by simp, by simp⟩
    · rw [hst]; simp
  | none =>
    cases he : (d.GetReps a x.dstate x.heap).1.err with
    | some e =>
      have hout := hmisserr e hg he
      refine ⟨Or.inr ⟨e, hout⟩, fun e1 _ he1 => ?_, by rw [hout]; simp⟩
      rw [← Option.some.inj he1]
      exact hout
    | none =>
      obtain ⟨p, q, R, C, hok⟩ := hd a x.dstate x.heap he
      rw [← hdel] at hok
      have hst := x.rc.GetReps_miss_ok now a x.dstate x.heap p q R C hg hok
      refine ⟨Or.inl ⟨R, C, ?_⟩, fun e _ he1 => absurd he1 (by simp), ?_⟩
      · unfold Sys.GetReps
        rw [hst]
        exact ⟨p, q, rfl, hok.2.1, hok.2.2⟩
      · unfold Sys.GetReps
        rw [hst]; simp

/-- C16 at a concrete input: `partialDelegate` returns a non-nil result
alongside its error for `""`; the call returns `(nil, nil, error)`. -/
theorem result_shape_witness :
    partialDelegate.NonNilOnSuccess ∧
      (partialDelegate.GetReps "" 1 ⟨["reps of A"], ["A-canonical"]⟩).1
        = ⟨some 1, none, some ⟨400, "Missing address", []⟩⟩ ∧
      (((Sys.mk (NewRepCache partialDelegate 100 50) 0 emptyHeap).run
        [.call 0 "A"]).GetReps 1 "").out
          = .returned ⟨none, none, some ⟨400, "Missing address", []⟩⟩ ∧
      (((Sys.mk (NewRepCache partialDelegate 100 50) 0 emptyHeap).run
        [.call 0 "A"]).GetReps 1 "").out ≠ .panicked :=
  ⟨partialDelegate_NonNilOnSuccess, by decide, by decide,
    (result_shape partialDelegate partialDelegate_NonNilOnSuccess 100 50 0 emptyHeap
      [.call 0 "A"] 1 "").2.2⟩

/-- C17 (type-assertion safety).  In every state reached from the store
created by `NewRepCache` by any sequence of events (`GetReps` calls, sweeps,
assignments by callers), every value held in the store is a `*cacheItem`; so
whenever `GetReps(a)` is a hit, the type assertion of reps.go:84 succeeds and
the call returns two pointers and a nil error. -/
theorem type_assertion_safe (d : RepFinder σ L A E) (ttl gc : Int) (s0 : σ) (h0 : Heap L A)
    (evs : List (Event L A)) :
    (∀ k item, ((Sys.mk (NewRepCache d ttl gc) s0 h0).run evs).rc.cache.items k = some item →
        ∃ ci, item.Object = .cacheItemPtr ci) ∧
      ∀ now a data,
        ((Sys.mk (NewRepCache d ttl gc) s0 h0).run evs).rc.cache.Get now a = some data →
        ∃ ci p q, data = .cacheItemPtr ci ∧
          (((Sys.mk (NewRepCache d ttl gc) s0 h0).run evs).GetReps now a).out
            = .returned ⟨some p, some q, none⟩ := by
  have hty := Sys.run_Typed _ evs (Sys.init_Typed d ttl gc s0 h0)
  refine ⟨hty, ?_⟩
  intro now a data hg
  obtain ⟨ci, hci, hst⟩ := Sys.GetReps_hit_of_Typed _ hty now a data hg
  exact ⟨ci, _, _, hci, by rw [hst]⟩

/-- C17 at a concrete input: after two calls and a sweep the store holds a
`*cacheItem` under `"A"` and the hit returns; a store that is not reachable,
holding a value of another type, makes the same call panic. -/
theorem type_assertion_safe_witness :
    (((Sys.mk (NewRepCache stubDelegate 100 50) 0 emptyHeap).run
        [.call 0 "A", .sweep 50, .call 60 "B"]).GetReps 70 "A").out
          = .returned ⟨some 2, some 2, none⟩ ∧
      (∃ ci p q, Value.cacheItemPtr ⟨"reps of A", "A-canonical"⟩ = Value.cacheItemPtr ci ∧
        (((Sys.mk (NewRepCache stubDelegate 100 50) 0 emptyHeap).run
          [.call 0 "A", .sweep 50, .call 60 "B"]).GetReps 70 "A").out
            = .returned ⟨some p, some q, none⟩) ∧
      (((NewRepCache stubDelegate 100 50).withItems
        (fun _ => some ⟨.other 7, 0⟩)).GetReps 70 "A" 0 emptyHeap).out = .panicked :=
  ⟨by decide,
    (type_assertion_safe stubDelegate 100 50 0 emptyHeap
      [.call 0 "A", .sweep 50, .call 60 "B"]).2 70 "A"
      (.cacheItemPtr ⟨"reps of A", "A-canonical"⟩) (by decide),
    by decide⟩

end Claims

end FiveCalls
